import Mathlib

/-!
Verification of the motion-and-protocol core of a 3D-printer music driver.

The development shallowly embeds the Python sources:

* `src/gcode_sender.py` — the busy/retry dispatch loop (`send_gcode_with_retry`);
* `src/position_tracker.py` — the absolute position tracker (`move_to`);
* `src/motion_planner.py` — the ray-marching motion planner
  (`plan_movement`, `_ray_march`);
* `src/note_player.py` — the note-playing orchestrator.

Python floats are embedded as real numbers; `float('inf')` values, which the
source uses only as "this axis never reaches a boundary" markers, become
`Option ℝ` with `none` for infinity.  Wall-clock time in the dispatcher is
abstracted by presenting, for each retry attempt, the list of response lines
that arrive before that attempt's timeout elapses.
-/

namespace PrinterMusic

/-! ## Device responses and the dispatcher (src/gcode_sender.py)

A response line is a list of characters (the Python code reads
`ser.readline().decode().strip()`; lines are modelled post-strip).  Marker
detection is the Python `"ok" in line.lower()` test: case-insensitive
substring containment. -/

/-- Characters of a response line. -/
abbrev Line := List Char

/-- Decides whether `p` is a prefix of `s` (character-wise equality). -/
def isPrefOf : List Char → List Char → Bool
  | [], _ => true
  | _ :: _, [] => false
  | a :: as, b :: bs => a == b && isPrefOf as bs

/-- Decides whether `p` occurs as a contiguous subsequence of `s`;
this is Python's `p in s` on strings. -/
def containsSeq (p : List Char) : List Char → Bool
  | [] => isPrefOf p []
  | c :: rest => isPrefOf p (c :: rest) || containsSeq p rest

/-- Python's `marker in line.lower()`. -/
def hasMarker (marker : List Char) (line : Line) : Bool :=
  containsSeq marker (line.map Char.toLower)

/-- The success marker substring. -/
def okMark : List Char := "ok".toList

/-- The transient marker substring. -/
def busyMark : List Char := "busy".toList

/-- The failure marker substring. -/
def errMark : List Char := "error".toList

/-- Result of polling the response stream during one retry attempt
(the inner `while time.time() - start_time < timeout` loop of
`send_gcode_with_retry`). -/
inductive AttemptOut where
  | lineOk (acc : List Line)
  | lineErr (l : Line)
  | timedOut (sawBusy : Bool)
  deriving Repr, DecidableEq

/-- One polling attempt of `send_gcode_with_retry` (gcode_sender.py:98-119).
The argument list holds the lines that arrive before this attempt's timeout;
`acc` is `response_lines`, `sb` is `saw_busy`.  Returns the attempt outcome
together with the number of lines read.  Matching the source, a non-empty
line is appended to the accumulator before classification, and the markers
are tested in the order ok, busy, error. -/
def attemptPoll : List Line → List Line → Bool → AttemptOut × Nat
  | [], _acc, sb => (.timedOut sb, 0)
  | l :: rest, acc, sb =>
    let acc' := if l.isEmpty then acc else acc ++ [l]
    if hasMarker okMark l then (.lineOk acc', 1)
    else if hasMarker busyMark l then
      let r := attemptPoll rest acc' true
      (r.1, r.2 + 1)
    else if hasMarker errMark l then (.lineErr l, 1)
    else
      let r := attemptPoll rest acc' sb
      (r.1, r.2 + 1)

/-- Terminal outcome of one dispatch. -/
inductive SendOut where
  | okRes (acc : List Line)
  | errRes (l : Line)
  | timeoutRes
  deriving Repr, DecidableEq

/-- Observable result of a dispatch: outcome, number of times the command
was written to the serial channel, and number of response lines read. -/
structure RunRes where
  out : SendOut
  writes : Nat
  reads : Nat
  deriving Repr, DecidableEq

/-- The retry loop of `send_gcode_with_retry` (gcode_sender.py:88-126).
The first argument is the remaining attempt budget (`max_retries` minus the
attempts already spent); `arrs` lists, per attempt, the lines arriving
within that attempt's timeout; `first` tracks `attempt == 0` (the command is
written only then); `w` and `r` accumulate writes and reads. -/
def retryGo : Nat → List (List Line) → Bool → Nat → Nat → RunRes
  | 0, _, _, w, r => ⟨.timeoutRes, w, r⟩
  | n + 1, arrs, first, w, r =>
    let w' := if first then w + 1 else w
    match attemptPoll (arrs.headD []) [] false with
    | (.lineOk acc, k) => ⟨.okRes acc, w', r + k⟩
    | (.lineErr l, k) => ⟨.errRes l, w', r + k⟩
    | (.timedOut sb, k) =>
      if sb then retryGo n arrs.tail false w' (r + k)
      else ⟨.timeoutRes, w', r + k⟩

/-- Embedding of `send_gcode_with_retry` (gcode_sender.py:58-126): dispatch a
command with `maxRetries` polling attempts against a device whose response
lines arrive as described by `arrivals` (one list per attempt). -/
def send_gcode_with_retry (maxRetries : Nat) (arrivals : List (List Line)) : RunRes :=
  retryGo maxRetries arrivals true 0 0

/-- A line that contains the busy marker is non-empty. -/
lemma hasBusy_ne_empty {l : Line} (h : hasMarker busyMark l = true) : l.isEmpty = false := by
  cases l with
  | nil => exact absurd h (by decide)
  | cons a as => rfl

/-- A line that contains the ok marker is non-empty. -/
lemma hasOk_ne_empty {l : Line} (h : hasMarker okMark l = true) : l.isEmpty = false := by
  cases l with
  | nil => exact absurd h (by decide)
  | cons a as => rfl

/-- Polling past a block of plain busy lines: each one is appended to the
accumulator, sets `saw_busy`, and polling continues. -/
lemma attemptPoll_append_busy (bs rest : List Line) (acc : List Line) (sb : Bool)
    (h : ∀ b ∈ bs, hasMarker okMark b = false ∧ hasMarker busyMark b = true) :
    attemptPoll (bs ++ rest) acc sb =
      ((attemptPoll rest (acc ++ bs) (sb || !bs.isEmpty)).1,
       (attemptPoll rest (acc ++ bs) (sb || !bs.isEmpty)).2 + bs.length) := by
  induction bs generalizing acc sb with
  | nil => simp
  | cons b bs ih =>
    have hb := h b (by simp)
    have hne : b.isEmpty = false := hasBusy_ne_empty hb.2
    simp only [List.cons_append, attemptPoll, hne, Bool.false_eq_true, if_false,
      hb.1, hb.2, if_true, List.append_eq]
    rw [ih (acc ++ [b]) true (fun x hx => h x (by simp [hx]))]
    simp [List.append_assoc]
    omega

/-- Polling a block of busy lines followed by an ok line succeeds, returning
all the lines of the attempt after reading each of them exactly once. -/
lemma attemptPoll_busy_then_ok (bs : List Line) (okl : Line)
    (hbs : ∀ b ∈ bs, hasMarker okMark b = false ∧ hasMarker busyMark b = true)
    (hok : hasMarker okMark okl = true) :
    attemptPoll (bs ++ [okl]) [] false = (.lineOk (bs ++ [okl]), bs.length + 1) := by
  rw [attemptPoll_append_busy bs [okl] [] false hbs]
  have hne : okl.isEmpty = false := hasOk_ne_empty hok
  simp [attemptPoll, hne, hok]
  omega

/-- A line is quiet when it carries none of the three markers; reading it
neither terminates the attempt nor sets `saw_busy`. -/
def Quiet (l : Line) : Prop :=
  hasMarker okMark l = false ∧ hasMarker busyMark l = false ∧
    hasMarker errMark l = false

instance (l : Line) : Decidable (Quiet l) := by unfold Quiet; infer_instance

/-- Polling a stream of quiet lines times out with `saw_busy` unchanged. -/
lemma attemptPoll_quiet (ls : List Line) (acc : List Line) (sb : Bool)
    (h : ∀ l ∈ ls, Quiet l) :
    attemptPoll ls acc sb = (.timedOut sb, ls.length) := by
  induction ls generalizing acc with
  | nil => rfl
  | cons l ls ih =>
    have hl := h l (by simp)
    simp only [attemptPoll, hl.1, hl.2.1, hl.2.2, Bool.false_eq_true, if_false]
    rw [ih _ (fun x hx => h x (by simp [hx]))]
    simp

/-- A line that keeps the attempt going: no ok marker, and either busy
(transient) or no error marker. -/
def NonTerminal (l : Line) : Prop :=
  hasMarker okMark l = false ∧
    (hasMarker busyMark l = true ∨ hasMarker errMark l = false)

instance (l : Line) : Decidable (NonTerminal l) := by unfold NonTerminal; infer_instance

/-- Polling reaches a plain error line after any run of non-terminal lines
and fails there, reading nothing past it. -/
lemma attemptPoll_reaches_error (pre : List Line) (errl : Line) (post : List Line)
    (acc : List Line) (sb : Bool)
    (hpre : ∀ l ∈ pre, NonTerminal l)
    (he : hasMarker okMark errl = false ∧ hasMarker busyMark errl = false ∧
      hasMarker errMark errl = true) :
    attemptPoll (pre ++ errl :: post) acc sb = (.lineErr errl, pre.length + 1) := by
  induction pre generalizing acc sb with
  | nil => simp [attemptPoll, he.1, he.2.1, he.2.2]
  | cons l pre ih =>
    have hl := hpre l (by simp)
    rcases hl with ⟨hok, hbe⟩
    rcases hbe with hb | he2
    · simp only [List.cons_append, attemptPoll, hok, Bool.false_eq_true, if_false, hb, if_true,
        List.append_eq]
      rw [ih _ _ (fun x hx => hpre x (by simp [hx]))]
      simp
    · by_cases hb : hasMarker busyMark l = true
      · simp only [List.cons_append, attemptPoll, hok, Bool.false_eq_true, if_false, hb, if_true,
          List.append_eq]
        rw [ih _ _ (fun x hx => hpre x (by simp [hx]))]
        simp
      · simp only [List.cons_append, attemptPoll, hok, Bool.false_eq_true, if_false,
          eq_false_of_ne_true hb, he2, List.append_eq]
        rw [ih _ _ (fun x hx => hpre x (by simp [hx]))]
        simp

/-- A busy chunk: every line of the attempt carries the busy marker and not
the ok marker, and at least one line arrived. -/
def BusyChunk (c : List Line) : Prop :=
  c ≠ [] ∧ ∀ b ∈ c, hasMarker okMark b = false ∧ hasMarker busyMark b = true

instance (c : List Line) : Decidable (BusyChunk c) := by unfold BusyChunk; infer_instance

/-- An all-busy attempt times out with `saw_busy` set, having read every
line of the attempt. -/
lemma attemptPoll_busy_chunk (c : List Line) (hc : BusyChunk c) :
    attemptPoll c [] false = (.timedOut true, c.length) := by
  have := attemptPoll_append_busy c [] [] false hc.2
  simp only [List.append_nil] at this
  rw [this]
  rcases hc with ⟨hne, _⟩
  cases c with
  | nil => exact absurd rfl hne
  | cons a as => simp [attemptPoll]

/-- Retry-loop accounting for the busy-then-ok scenario: the busy lines may
be distributed over several timed-out attempts (each seeing at least one
busy line), with the final attempt delivering the remaining busy lines and
the ok line.  The command is written exactly when `first` is set, and every
arriving line is read exactly once. -/
lemma retryGo_busy_then_ok (pre : List (List Line)) (last : List Line) (okl : Line)
    (hpre : ∀ c ∈ pre, BusyChunk c)
    (hlast : ∀ b ∈ last, hasMarker okMark b = false ∧ hasMarker busyMark b = true)
    (hok : hasMarker okMark okl = true) :
    ∀ n w r first, pre.length < n →
      retryGo n (pre ++ [last ++ [okl]]) first w r =
        ⟨.okRes (last ++ [okl]), if first then w + 1 else w,
          r + (pre.flatten.length + (last.length + 1))⟩ := by
  induction pre with
  | nil =>
    intro n w r first hn
    match n, hn with
    | n + 1, _ =>
      simp only [retryGo, List.nil_append, List.headD_cons]
      rw [attemptPoll_busy_then_ok last okl hlast hok]
      simp
  | cons c pre ih =>
    intro n w r first hn
    match n, hn with
    | n + 1, hn =>
      simp only [retryGo, List.cons_append, List.headD_cons]
      rw [attemptPoll_busy_chunk c (hpre c (by simp))]
      simp only [List.tail_cons]
      rw [ih (fun x hx => hpre x (by simp [hx])) n _ _ false (by simpa using hn)]
      simp; omega

/-- Retry-loop accounting when every attempt times out after seeing busy
lines only: attempts are spent one per chunk until the budget runs out. -/
lemma retryGo_all_busy (arrs : List (List Line)) (h : ∀ c ∈ arrs, BusyChunk c) :
    ∀ n w r first, n ≤ arrs.length →
      retryGo n arrs first w r =
        ⟨.timeoutRes, if first = true ∧ 0 < n then w + 1 else w,
          r + ((arrs.take n).map List.length).sum⟩ := by
  intro n
  induction n generalizing arrs with
  | zero => intro w r first _; simp [retryGo]
  | succ n ih =>
    intro w r first hn
    match arrs, hn with
    | c :: rest, hn =>
      simp only [retryGo, List.headD_cons, List.tail_cons]
      rw [attemptPoll_busy_chunk c (h c (by simp))]
      simp only [if_true]
      rw [ih rest (fun x hx => h x (by simp [hx])) (if first = true then w + 1 else w)
        (r + c.length) false (by simpa using hn)]
      simp
      omega

/-- C5: a dispatch whose response stream is a run of busy lines followed by
an ok line — the busy lines possibly spread over several timed-out polling
attempts, each attempt seeing at least one of them, all within the attempt
budget — writes the command exactly once (on the first attempt), succeeds,
and reads exactly N+1 response lines, each of which is appended to the
current attempt's accumulator. -/
theorem dispatcher_busy_then_ok (pre : List (List Line)) (last : List Line) (okl : Line)
    (maxRetries : Nat)
    (hpre : ∀ c ∈ pre, BusyChunk c)
    (hlast : ∀ b ∈ last, hasMarker okMark b = false ∧ hasMarker busyMark b = true)
    (hok : hasMarker okMark okl = true)
    (hbudget : pre.length < maxRetries) :
    send_gcode_with_retry maxRetries (pre ++ [last ++ [okl]]) =
      ⟨.okRes (last ++ [okl]), 1, pre.flatten.length + (last.length + 1)⟩ := by
  unfold send_gcode_with_retry
  rw [retryGo_busy_then_ok pre last okl hpre hlast hok maxRetries 0 0 true hbudget]
  simp

/-- Witness for C5: one busy line then ok, within a single attempt, with the
default budget of 50 attempts: one write, success, two lines read. -/
theorem dispatcher_busy_then_ok_witness :
    send_gcode_with_retry 50 [["busy: processing".toList, "ok".toList]] =
      ⟨.okRes ["busy: processing".toList, "ok".toList], 1, 2⟩ := by
  have h := dispatcher_busy_then_ok [] ["busy: processing".toList] "ok".toList 50
    (by simp) (by decide) (by decide) (by decide)
  simpa using h

/-- C6: the dispatcher's failure modes.  First, an attempt that times out
having observed no busy line fails the whole dispatch as a timeout at once:
later arrivals are never polled (the read count stops at the first chunk).
Second, when every attempt times out after seeing only busy lines, attempts
continue until the budget is exhausted and the dispatch fails as a timeout.
Third, a plain error line (no ok or busy marker) reached after non-terminal
lines fails the dispatch as an explicit device error, reading nothing past
it. -/
theorem dispatcher_failure_modes :
    (∀ (maxR : Nat) (chunk : List Line) (rest : List (List Line)),
      1 ≤ maxR → (∀ l ∈ chunk, Quiet l) →
      send_gcode_with_retry maxR (chunk :: rest) = ⟨.timeoutRes, 1, chunk.length⟩) ∧
    (∀ (maxR : Nat) (arrs : List (List Line)),
      (∀ c ∈ arrs, BusyChunk c) → maxR ≤ arrs.length →
      send_gcode_with_retry maxR arrs =
        ⟨.timeoutRes, if 0 < maxR then 1 else 0,
          ((arrs.take maxR).map List.length).sum⟩) ∧
    (∀ (maxR : Nat) (pre : List Line) (errl : Line) (post : List Line)
        (rest : List (List Line)),
      1 ≤ maxR → (∀ l ∈ pre, NonTerminal l) →
      hasMarker okMark errl = false → hasMarker busyMark errl = false →
      hasMarker errMark errl = true →
      send_gcode_with_retry maxR ((pre ++ errl :: post) :: rest) =
        ⟨.errRes errl, 1, pre.length + 1⟩) := by
  refine ⟨?_, ?_, ?_⟩
  · intro maxR chunk rest hmax hq
    match maxR, hmax with
    | n + 1, _ =>
      simp only [send_gcode_with_retry, retryGo, List.headD_cons]
      rw [attemptPoll_quiet chunk [] false hq]
      simp
  · intro maxR arrs hb hlen
    unfold send_gcode_with_retry
    rw [retryGo_all_busy arrs hb maxR 0 0 true hlen]
    simp
  · intro maxR pre errl post rest hmax hpre hok hbusy herr
    match maxR, hmax with
    | n + 1, _ =>
      simp only [send_gcode_with_retry, retryGo, List.headD_cons]
      rw [attemptPoll_reaches_error pre errl post [] false hpre ⟨hok, hbusy, herr⟩]
      simp

/-- Witness for C6: the three failure modes at concrete inputs — a quiet
attempt fails at once without reading the second chunk; two all-busy
attempts exhaust a budget of two; a plain error line fails explicitly. -/
theorem dispatcher_failure_modes_witness :
    send_gcode_with_retry 50 [["echo: hello".toList], ["ok".toList]] =
      ⟨.timeoutRes, 1, 1⟩ ∧
    send_gcode_with_retry 2 [["busy: processing".toList], ["busy: processing".toList]] =
      ⟨.timeoutRes, 1, 2⟩ ∧
    send_gcode_with_retry 50 [["busy: processing".toList, "error: failed".toList]] =
      ⟨.errRes "error: failed".toList, 1, 2⟩ := by
  refine ⟨?_, ?_, ?_⟩
  · have h := dispatcher_failure_modes.1 50 ["echo: hello".toList] [["ok".toList]]
      (by decide) (by decide)
    simpa using h
  · have h := dispatcher_failure_modes.2.1 2
      [["busy: processing".toList], ["busy: processing".toList]] (by decide) (by decide)
    simpa using h
  · have h := dispatcher_failure_modes.2.2 50 ["busy: processing".toList]
      "error: failed".toList [] [] (by decide) (by decide) (by decide) (by decide) (by decide)
    simpa using h

/-! ## Configuration (src/config.py) and the position tracker
(src/position_tracker.py) -/

/-- Motor axes. -/
inductive Ax where
  | X | Y | Z
  deriving DecidableEq, Repr

/-- Steps-per-millimetre calibration (config.py `STEPS_PER_MM`). -/
def STEPS_PER_MM : Ax → ℝ
  | .X => 80
  | .Y => 80
  | .Z => 400

/-- Playable frequency band in Hz per axis (config.py `FREQUENCY_RANGES`). -/
def FREQUENCY_RANGES : Ax → ℝ × ℝ
  | .X => (130.81, 12543.85)
  | .Y => (130.81, 12543.85)
  | .Z => (123.47, 1864.66)

/-- Safe travel interval in mm per axis (config.py `SAFE_LIMITS`). -/
def SAFE_LIMITS : Ax → ℝ × ℝ
  | .X => (10.0, 225.0)
  | .Y => (10.0, 225.0)
  | .Z => (3.0, 200.0)

/-- Python exceptions raised by the core (src/exceptions.py, plus the
built-in `ValueError` and `AttributeError`). -/
inductive PyErr where
  | valueError
  | attributeError
  | outOfBounds
  | gcodeError
  | commandTimeout
  deriving DecidableEq, Repr

/-- State of `AbsolutePositionTracker` (position_tracker.py:20-22): the last
confirmed coordinate per axis, `none` when unknown. -/
structure Tracker where
  x : Option ℝ
  y : Option ℝ
  z : Option ℝ

/-- Embedding of `AbsolutePositionTracker.get_position`. -/
def Tracker.position (tr : Tracker) : Ax → Option ℝ
  | .X => tr.x
  | .Y => tr.y
  | .Z => tr.z

/-- Embedding of `AbsolutePositionTracker.set_position`. -/
def Tracker.set_position (tr : Tracker) (axis : Ax) (p : ℝ) : Tracker :=
  match axis with
  | .X => { tr with x := some p }
  | .Y => { tr with y := some p }
  | .Z => { tr with z := some p }

/-- Result of one `move_to` call: the tracker state afterwards, the raised
exception if any (`none` on success), and how many times a command was
written to the serial channel. -/
structure MoveRes where
  tracker : Tracker
  err : Option PyErr
  writes : Nat

/-- Embedding of `AbsolutePositionTracker.move_to` (position_tracker.py:32-69).
The boundary is validated first (all three axes appear in `SAFE_LIMITS`, so
the `axis in SAFE_LIMITS` guard always holds); a violation raises
`OutOfBoundsError` with nothing written.  Otherwise the `G1` command is
dispatched through `send_gcode_with_retry` — modelled by its response
`arrivals` — and the tracked position is updated only when the dispatch
returns success (on `GCodeError` or `CommandTimeoutError` the Python update
line is never reached). -/
noncomputable def move_to (tr : Tracker) (axis : Ax) (target feedrate : ℝ)
    (maxRetries : Nat) (arrivals : List (List Line)) : MoveRes :=
  let lims := SAFE_LIMITS axis
  if ¬(lims.1 ≤ target ∧ target ≤ lims.2) then ⟨tr, some .outOfBounds, 0⟩
  else
    let run := send_gcode_with_retry maxRetries arrivals
    match run.out with
    | .okRes _ => ⟨tr.set_position axis target, none, run.writes⟩
    | .errRes _ => ⟨tr, some .gcodeError, run.writes⟩
    | .timeoutRes => ⟨tr, some .commandTimeout, run.writes⟩

/-- Feedrate is only interpolated into the command text, never used in the
move decision; record that it does not affect the model. -/
lemma move_to_feedrate_irrel (tr : Tracker) (axis : Ax) (target f g : ℝ)
    (maxR : Nat) (arrs : List (List Line)) :
    move_to tr axis target f maxR arrs = move_to tr axis target g maxR arrs := rfl

/-- C7: `move_to` bounds handling.  An out-of-interval target fails with a
bounds error before anything is written and leaves the stored position
unchanged; an in-bounds target whose dispatch fails leaves the stored
position unchanged and surfaces the failure; the stored coordinate becomes
the target exactly when the dispatch succeeds. -/
theorem move_to_bounds_and_update :
    (∀ (tr : Tracker) (axis : Ax) (target feedrate : ℝ) (maxR : Nat)
        (arrs : List (List Line)),
      ¬((SAFE_LIMITS axis).1 ≤ target ∧ target ≤ (SAFE_LIMITS axis).2) →
      move_to tr axis target feedrate maxR arrs = ⟨tr, some .outOfBounds, 0⟩) ∧
    (∀ (tr : Tracker) (axis : Ax) (target feedrate : ℝ) (maxR : Nat)
        (arrs : List (List Line)),
      ((SAFE_LIMITS axis).1 ≤ target ∧ target ≤ (SAFE_LIMITS axis).2) →
      (∀ acc, (send_gcode_with_retry maxR arrs).out ≠ .okRes acc) →
      (move_to tr axis target feedrate maxR arrs).tracker = tr ∧
      (move_to tr axis target feedrate maxR arrs).err ≠ none) ∧
    (∀ (tr : Tracker) (axis : Ax) (target feedrate : ℝ) (maxR : Nat)
        (arrs : List (List Line)) (acc : List Line),
      ((SAFE_LIMITS axis).1 ≤ target ∧ target ≤ (SAFE_LIMITS axis).2) →
      (send_gcode_with_retry maxR arrs).out = .okRes acc →
      (move_to tr axis target feedrate maxR arrs).tracker.position axis = some target ∧
      (move_to tr axis target feedrate maxR arrs).err = none) := by
  refine ⟨?_, ?_, ?_⟩
  · intro tr axis target feedrate maxR arrs h
    simp [move_to, h]
  · intro tr axis target feedrate maxR arrs h hfail
    unfold move_to
    simp only [h, and_self, not_true_eq_false, if_false]
    cases hout : (send_gcode_with_retry maxR arrs).out with
    | okRes acc => exact absurd hout (hfail acc)
    | errRes l => simp
    | timeoutRes => simp
  · intro tr axis target feedrate maxR arrs acc h hok
    unfold move_to
    simp only [h, and_self, not_true_eq_false, if_false, hok]
    cases axis <;> simp [Tracker.set_position, Tracker.position]

/-- Witness for C7 at concrete inputs: target 300 mm on X is rejected with
no write and no state change; an in-bounds move whose dispatch reports an
error leaves the tracker unchanged; an acknowledged in-bounds move stores
the target. -/
theorem move_to_bounds_and_update_witness :
    move_to ⟨some 50, some 50, some 5⟩ .X 300 1000 50 [] =
      ⟨⟨some 50, some 50, some 5⟩, some .outOfBounds, 0⟩ ∧
    ((move_to ⟨some 50, some 50, some 5⟩ .X 100 1000 50
        [["error: failed".toList]]).tracker = ⟨some 50, some 50, some 5⟩ ∧
      (move_to ⟨some 50, some 50, some 5⟩ .X 100 1000 50
        [["error: failed".toList]]).err ≠ none) ∧
    ((move_to ⟨some 50, some 50, some 5⟩ .X 100 1000 50
        [["ok".toList]]).tracker.position .X = some 100 ∧
      (move_to ⟨some 50, some 50, some 5⟩ .X 100 1000 50
        [["ok".toList]]).err = none) := by
  refine ⟨?_, ?_, ?_⟩
  · exact move_to_bounds_and_update.1 _ .X 300 1000 50 [] (by norm_num [SAFE_LIMITS])
  · refine move_to_bounds_and_update.2.1 _ .X 100 1000 50 _ (by norm_num [SAFE_LIMITS]) ?_
    intro acc
    have : send_gcode_with_retry 50 [["error: failed".toList]] =
        ⟨.errRes "error: failed".toList, 1, 1⟩ := by decide
    rw [this]
    simp
  · exact move_to_bounds_and_update.2.2 _ .X 100 1000 50 _ ["ok".toList]
      (by norm_num [SAFE_LIMITS]) (by decide)

/-! ## The motion planner (src/motion_planner.py)

Python floats become real numbers.  `float('inf')`, used only as the
time-to-boundary of an axis whose velocity is within epsilon of zero,
becomes `none : Option ℝ`; the reflection logic spells out how the source's
comparisons behave on infinite operands.  The unbounded `while` loop is
embedded with a fuel parameter (`none` = fuel exhausted); claim C4 proves
that sufficient fuel always exists. -/

/-- Floating-point comparison guard of `_ray_march` (motion_planner.py:203). -/
noncomputable def epsilon : ℝ := 1e-6

/-- Boundary configuration of `MotionPlanner` (motion_planner.py:18-26). -/
structure MotionPlanner where
  x_min : ℝ
  x_max : ℝ
  y_min : ℝ
  y_max : ℝ

/-- State of the `_ray_march` while loop: current position, signed velocity
components, and the diagonal distance still to cover. -/
structure St where
  x : ℝ
  y : ℝ
  vx : ℝ
  vy : ℝ
  rem : ℝ

/-- Time to reach the boundary ahead on one axis (motion_planner.py:206-221):
`(bound − pos) / v` with the bound chosen in the travel direction; `none`
models the source's `float('inf')` when `abs v` is within epsilon of zero. -/
noncomputable def timeToBound (pos lo hi v : ℝ) : Option ℝ :=
  if epsilon < |v| then some (if 0 < v then (hi - pos) / v else (lo - pos) / v)
  else none

/-- Minimum of two extended times (`t_bounce = min(t_x, t_y)`,
motion_planner.py:224), with `none` as infinity. -/
noncomputable def optMin : Option ℝ → Option ℝ → Option ℝ
  | none, t => t
  | some a, none => some a
  | some a, some b => some (min a b)

/-- Velocity reflection at a bounce (motion_planner.py:252-263): flip both
components on a corner hit (`abs(t_x - t_y) < epsilon`), otherwise flip the
axis whose boundary time was strictly smaller.  When one time is infinite
the float code's corner test is false and the finite time is the smaller,
which the `none` cases spell out; two infinite times never reach this code
(`t_bounce` would be infinite and the arithmetic NaN). -/
noncomputable def reflect (tx? ty? : Option ℝ) (vx vy : ℝ) : ℝ × ℝ :=
  match tx?, ty? with
  | some tx, some ty =>
    if |tx - ty| < epsilon then (-vx, -vy)
    else if tx < ty then (-vx, vy)
    else (vx, -vy)
  | some _, none => (-vx, vy)
  | none, some _ => (vx, -vy)
  | none, none => (vx, vy)

/-- Result of one iteration of the `_ray_march` while loop. -/
inductive StepRes where
  | exit
  | final (p : ℝ × ℝ)
  | bounce (w : ℝ × ℝ) (s : St)
  | stuck

/-- One iteration of the `_ray_march` loop body (motion_planner.py:205-263).
`exit` is the loop condition `remaining_distance > epsilon` failing;
`final` is the `segment_distance >= remaining_distance` branch (last
waypoint, then `break`); `bounce` emits the boundary waypoint and the
updated state.  `stuck` covers both boundary times infinite, where the
float code would compute NaN coordinates from `0.0 * inf`: with a live axis
(velocity beyond epsilon) it is unreachable, which `marchStep_not_stuck`
proves. -/
noncomputable def marchStep (c : MotionPlanner) (s : St) : StepRes :=
  if s.rem ≤ epsilon then .exit
  else
    let tx? := timeToBound s.x c.x_min c.x_max s.vx
    let ty? := timeToBound s.y c.y_min c.y_max s.vy
    match optMin tx? ty? with
    | none => .stuck
    | some t_bounce =>
      let x_next := s.x + s.vx * t_bounce
      let y_next := s.y + s.vy * t_bounce
      let dx := x_next - s.x
      let dy := y_next - s.y
      let segment_distance := Real.sqrt (dx * dx + dy * dy)
      if s.rem ≤ segment_distance then
        let t_final := s.rem / Real.sqrt (s.vx * s.vx + s.vy * s.vy)
        .final (s.x + s.vx * t_final, s.y + s.vy * t_final)
      else
        let v' := reflect tx? ty? s.vx s.vy
        .bounce (x_next, y_next) ⟨x_next, y_next, v'.1, v'.2, s.rem - segment_distance⟩

/-- Embedding of `MotionPlanner._ray_march` (motion_planner.py:181-265) as a
fuel-indexed loop; `none` means the fuel ran out before the loop finished. -/
noncomputable def ray_march (c : MotionPlanner) : Nat → St → Option (List (ℝ × ℝ))
  | 0, _ => none
  | n + 1, s =>
    match marchStep c s with
    | .exit => some []
    | .stuck => some []
    | .final p => some [p]
    | .bounce w s' => (ray_march c n s').map (fun ws => w :: ws)

/-- Sum of the Euclidean distances between consecutive waypoints, starting
from `start` (the quantity of spec §8, first property). -/
noncomputable def pathLength (start : ℝ × ℝ) : List (ℝ × ℝ) → ℝ
  | [] => 0
  | p :: ps =>
    Real.sqrt ((p.1 - start.1) * (p.1 - start.1) + (p.2 - start.2) * (p.2 - start.2)) +
      pathLength p ps

/-- Embedding of `MotionPlanner.frequency_to_velocity`
(motion_planner.py:28-43). -/
noncomputable def frequency_to_velocity (axis : Ax) (frequency : ℝ) : ℝ :=
  frequency / STEPS_PER_MM axis

/-- Embedding of `MotionPlanner._choose_direction_probabilistic`
(motion_planner.py:45-80); `r` is the draw of `random.random()`. -/
noncomputable def choose_direction_probabilistic (r : ℝ)
    (current_pos min_bound max_bound steepness : ℝ) : Int :=
  let normalized_pos := (current_pos - min_bound) / (max_bound - min_bound)
  let xv := steepness * (normalized_pos - 0.5)
  let probability_move_positive := 1.0 / (1.0 + Real.exp xv)
  if r < probability_move_positive then 1 else -1

/-- Embedding of `MotionPlanner.plan_movement` (motion_planner.py:82-140).
`rx`, `ry` are the `random.random()` draws consumed when no direction
override is supplied, and `fuel` bounds the ray-march loop (C4 shows some
sufficient fuel always exists). -/
noncomputable def plan_movement (c : MotionPlanner) (freq_x freq_y : Option ℝ)
    (duration x0 y0 : ℝ) (override_dir_x override_dir_y : Option Int)
    (rx ry : ℝ) (fuel : Nat) :
    Option (List (ℝ × ℝ) × ℝ × Option Int × Option Int) :=
  let vx := match freq_x with
    | some f => frequency_to_velocity .X f
    | none => 0.0
  let vy := match freq_y with
    | some f => frequency_to_velocity .Y f
    | none => 0.0
  let v_total := Real.sqrt (vx * vx + vy * vy)
  let total_distance := v_total * duration
  let dir_x : Option Int := match freq_x with
    | none => none
    | some _ => some (match override_dir_x with
        | some d => d
        | none => choose_direction_probabilistic rx x0 c.x_min c.x_max 10.0)
  let dir_y : Option Int := match freq_y with
    | none => none
    | some _ => some (match override_dir_y with
        | some d => d
        | none => choose_direction_probabilistic ry y0 c.y_min c.y_max 10.0)
  let signed_vx := match dir_x with
    | some d => vx * (d : ℝ)
    | none => 0.0
  let signed_vy := match dir_y with
    | some d => vy * (d : ℝ)
    | none => 0.0
  match ray_march c fuel ⟨x0, y0, signed_vx, signed_vy, total_distance⟩ with
  | none => none
  | some waypoints => some (waypoints, v_total * 60.0, dir_x, dir_y)

/-- Speed of a march state: the velocity-vector magnitude
(`math.sqrt(vx * vx + vy * vy)` of motion_planner.py:238). -/
noncomputable def spd (s : St) : ℝ := Real.sqrt (s.vx * s.vx + s.vy * s.vy)

/-- A velocity component as the ray march keeps it: either exactly zero (an
axis excluded from the plan) or beyond the epsilon guard. -/
def AxisOk (v : ℝ) : Prop := v = 0 ∨ epsilon < |v|

/-- Invariant of the ray-march loop: non-degenerate boundary intervals, the
current position inside them, both velocity components either zero or live,
and at least one live axis. -/
def Valid (c : MotionPlanner) (s : St) : Prop :=
  c.x_min < c.x_max ∧ c.y_min < c.y_max ∧
  c.x_min ≤ s.x ∧ s.x ≤ c.x_max ∧ c.y_min ≤ s.y ∧ s.y ≤ c.y_max ∧
  AxisOk s.vx ∧ AxisOk s.vy ∧ (epsilon < |s.vx| ∨ epsilon < |s.vy|)

/-- The magnitude of the velocity vector specified by the claim: each
requested frequency contributes `frequency / steps_per_unit`, an inactive
axis contributes zero. -/
noncomputable def specSpeed (freq_x freq_y : Option ℝ) : ℝ :=
  Real.sqrt
    ((match freq_x with | some f => f / STEPS_PER_MM .X | none => 0) *
      (match freq_x with | some f => f / STEPS_PER_MM .X | none => 0) +
     (match freq_y with | some f => f / STEPS_PER_MM .Y | none => 0) *
      (match freq_y with | some f => f / STEPS_PER_MM .Y | none => 0))

lemma epsilon_pos : (0 : ℝ) < epsilon := by norm_num [epsilon]

/-- The ray-march considers an axis live exactly when its speed exceeds the
epsilon guard; a live axis has nonzero velocity. -/
lemma ne_zero_of_live {v : ℝ} (h : epsilon < |v|) : v ≠ 0 := by
  intro h0
  rw [h0, abs_zero] at h
  exact absurd h (not_lt.2 epsilon_pos.le)

/-- Shorthand for the X boundary time of a state. -/
noncomputable def txOf (c : MotionPlanner) (s : St) : Option ℝ :=
  timeToBound s.x c.x_min c.x_max s.vx

/-- Shorthand for the Y boundary time of a state. -/
noncomputable def tyOf (c : MotionPlanner) (s : St) : Option ℝ :=
  timeToBound s.y c.y_min c.y_max s.vy

lemma timeToBound_of_zero (p lo hi : ℝ) : timeToBound p lo hi 0 = none := by
  simp [timeToBound, abs_zero, not_lt.2 epsilon_pos.le]

lemma timeToBound_of_live {v : ℝ} (p lo hi : ℝ) (h : epsilon < |v|) :
    timeToBound p lo hi v = some (if 0 < v then (hi - p) / v else (lo - p) / v) := by
  simp [timeToBound, h]

lemma timeToBound_none_velocity {p lo hi v : ℝ} (h : timeToBound p lo hi v = none)
    (hok : AxisOk v) : v = 0 := by
  rcases hok with h0 | hlive
  · exact h0
  · simp [timeToBound, hlive] at h

lemma timeToBound_some_live {p lo hi v t : ℝ} (h : timeToBound p lo hi v = some t) :
    epsilon < |v| := by
  by_cases hl : epsilon < |v|
  · exact hl
  · simp [timeToBound, hl] at h

lemma timeToBound_nonneg {p lo hi v t : ℝ} (h : timeToBound p lo hi v = some t)
    (hlo : lo ≤ p) (hhi : p ≤ hi) : 0 ≤ t := by
  have hlive := timeToBound_some_live h
  rw [timeToBound_of_live p lo hi hlive] at h
  have hne := ne_zero_of_live hlive
  rcases lt_trichotomy 0 v with hv | hv | hv
  · simp only [if_pos hv, Option.some.injEq] at h
    exact h ▸ div_nonneg (by linarith) hv.le
  · exact absurd hv.symm hne
  · simp only [if_neg (not_lt.2 hv.le), Option.some.injEq] at h
    exact h ▸ div_nonneg_of_nonpos (by linarith) hv.le

/-- Travelling for the full boundary time puts the coordinate exactly on
the boundary ahead. -/
lemma timeToBound_reach {p lo hi v t : ℝ} (h : timeToBound p lo hi v = some t) :
    p + v * t = if 0 < v then hi else lo := by
  have hlive := timeToBound_some_live h
  have hne := ne_zero_of_live hlive
  rw [timeToBound_of_live p lo hi hlive] at h
  by_cases hv : 0 < v
  · simp only [if_pos hv, Option.some.injEq] at h ⊢
    rw [← h]
    field_simp
  · simp only [if_neg hv, Option.some.injEq] at h ⊢
    rw [← h]
    field_simp

/-- Travelling for any time between zero and the boundary time keeps the
coordinate inside the interval. -/
lemma timeToBound_stay {p lo hi v t u : ℝ} (h : timeToBound p lo hi v = some t)
    (hlo : lo ≤ p) (hhi : p ≤ hi) (hu0 : 0 ≤ u) (hut : u ≤ t) :
    lo ≤ p + v * u ∧ p + v * u ≤ hi := by
  have hreach := timeToBound_reach h
  have hne := ne_zero_of_live (timeToBound_some_live h)
  by_cases hv : 0 < v
  · rw [if_pos hv] at hreach
    constructor
    · nlinarith
    · nlinarith
  · have hv' : v < 0 := lt_of_le_of_ne (not_lt.1 hv) hne
    rw [if_neg hv] at hreach
    constructor
    · nlinarith
    · nlinarith

lemma optMin_eq_none {a b : Option ℝ} (h : optMin a b = none) : a = none ∧ b = none := by
  cases a <;> cases b <;> simp_all [optMin]

lemma optMin_cases {a b : Option ℝ} {t : ℝ} (h : optMin a b = some t) :
    (a = some t ∨ b = some t) ∧
    (∀ x, a = some x → t ≤ x) ∧ (∀ y, b = some y → t ≤ y) := by
  cases a with
  | none =>
    cases b with
    | none => simp [optMin] at h
    | some y =>
      simp only [optMin, Option.some.injEq] at h
      subst h
      exact ⟨Or.inr rfl, by simp, by simp⟩
  | some x =>
    cases b with
    | none =>
      simp only [optMin, Option.some.injEq] at h
      subst h
      exact ⟨Or.inl rfl, by simp, by simp⟩
    | some y =>
      simp only [optMin, Option.some.injEq] at h
      subst h
      refine ⟨?_, ?_, ?_⟩
      · rcases le_total x y with hxy | hxy
        · exact Or.inl (by simp [min_eq_left hxy])
        · exact Or.inr (by simp [min_eq_right hxy])
      · intro z hz
        cases hz
        exact min_le_left x y
      · intro z hz
        cases hz
        exact min_le_right x y

/-- Each reflected component is the original or its negation. -/
lemma reflect_cases (tx? ty? : Option ℝ) (vx vy : ℝ) :
    ((reflect tx? ty? vx vy).1 = vx ∨ (reflect tx? ty? vx vy).1 = -vx) ∧
    ((reflect tx? ty? vx vy).2 = vy ∨ (reflect tx? ty? vx vy).2 = -vy) := by
  unfold reflect
  cases tx? <;> cases ty? <;> simp <;> split_ifs <;> simp

lemma AxisOk_of_pm {v w : ℝ} (h : AxisOk v) (hw : w = v ∨ w = -v) : AxisOk w := by
  rcases hw with rfl | rfl
  · exact h
  · rcases h with h0 | hl
    · exact Or.inl (by rw [h0, neg_zero])
    · exact Or.inr (by rwa [abs_neg])

lemma sq_of_pm {v w : ℝ} (hw : w = v ∨ w = -v) : w * w = v * v := by
  rcases hw with rfl | rfl <;> ring

lemma abs_of_pm {v w : ℝ} (hw : w = v ∨ w = -v) : |w| = |v| := by
  rcases hw with rfl | rfl
  · rfl
  · exact abs_neg v

/-- Euclidean length of a velocity vector scaled by a nonnegative time. -/
lemma sqrt_vel_scale (vx vy t : ℝ) (ht : 0 ≤ t) :
    Real.sqrt ((vx * t) * (vx * t) + (vy * t) * (vy * t)) =
      t * Real.sqrt (vx * vx + vy * vy) := by
  have harg : (vx * t) * (vx * t) + (vy * t) * (vy * t) =
      (t * t) * (vx * vx + vy * vy) := by ring
  rw [harg, Real.sqrt_mul (mul_self_nonneg t), Real.sqrt_mul_self ht]

lemma spd_pos {s : St} (h : epsilon < |s.vx| ∨ epsilon < |s.vy|) : 0 < spd s := by
  rw [spd, Real.sqrt_pos]
  rcases h with h | h
  · have := ne_zero_of_live h
    nlinarith [mul_self_nonneg s.vy, mul_self_pos.2 this]
  · have := ne_zero_of_live h
    nlinarith [mul_self_nonneg s.vx, mul_self_pos.2 this]

/-- A valid state has a finite, nonnegative bounce time, below both finite
axis times, and realised by one of them. -/
lemma tb_spec (c : MotionPlanner) (s : St) (hv : Valid c s) :
    ∃ tb, optMin (txOf c s) (tyOf c s) = some tb ∧ 0 ≤ tb ∧
      (∀ t, txOf c s = some t → tb ≤ t) ∧ (∀ t, tyOf c s = some t → tb ≤ t) ∧
      (txOf c s = some tb ∨ tyOf c s = some tb) := by
  obtain ⟨hxlt, hylt, hx0, hx1, hy0, hy1, hokx, hoky, hact⟩ := hv
  have hne : optMin (txOf c s) (tyOf c s) ≠ none := by
    intro hnone
    obtain ⟨ha, hb⟩ := optMin_eq_none hnone
    have hvx : s.vx = 0 := timeToBound_none_velocity ha hokx
    have hvy : s.vy = 0 := timeToBound_none_velocity hb hoky
    rcases hact with h | h
    · exact ne_zero_of_live h hvx
    · exact ne_zero_of_live h hvy
  obtain ⟨tb, htb⟩ := Option.ne_none_iff_exists'.1 hne
  obtain ⟨hor, hlex, hley⟩ := optMin_cases htb
  refine ⟨tb, htb, ?_, hlex, hley, hor⟩
  rcases hor with h | h
  · exact timeToBound_nonneg h hx0 hx1
  · exact timeToBound_nonneg h hy0 hy1

/-- Complete characterisation of one live loop iteration: either the final
partial waypoint is emitted — at exactly the remaining distance from the
current point, inside the boundaries — or a bounce waypoint is emitted with
reflected velocity, the segment length is deducted, and the loop invariant
is preserved. -/
lemma marchStep_cases_spec (c : MotionPlanner) (s : St) (hv : Valid c s)
    (hrem : epsilon < s.rem) :
    (∃ p, marchStep c s = .final p ∧
      Real.sqrt ((p.1 - s.x) * (p.1 - s.x) + (p.2 - s.y) * (p.2 - s.y)) = s.rem ∧
      c.x_min ≤ p.1 ∧ p.1 ≤ c.x_max ∧ c.y_min ≤ p.2 ∧ p.2 ≤ c.y_max) ∨
    (∃ tb w s', marchStep c s = .bounce w s' ∧
      optMin (txOf c s) (tyOf c s) = some tb ∧ 0 ≤ tb ∧
      w = (s'.x, s'.y) ∧
      s'.x = s.x + s.vx * tb ∧ s'.y = s.y + s.vy * tb ∧
      (s'.vx, s'.vy) = reflect (txOf c s) (tyOf c s) s.vx s.vy ∧
      s'.rem = s.rem - tb * spd s ∧ 0 < s'.rem ∧
      Valid c s' ∧ spd s' = spd s ∧
      Real.sqrt ((s'.x - s.x) * (s'.x - s.x) + (s'.y - s.y) * (s'.y - s.y)) =
        s.rem - s'.rem) := by
  obtain ⟨tb, htb, htb0, hlex, hley, hor⟩ := tb_spec c s hv
  obtain ⟨hxlt, hylt, hx0, hx1, hy0, hy1, hokx, hoky, hact⟩ := hv
  have hspd : 0 < spd s := spd_pos hact
  have hseg : Real.sqrt (((s.x + s.vx * tb) - s.x) * ((s.x + s.vx * tb) - s.x) +
      ((s.y + s.vy * tb) - s.y) * ((s.y + s.vy * tb) - s.y)) = tb * spd s := by
    have h1 : (s.x + s.vx * tb) - s.x = s.vx * tb := by ring
    have h2 : (s.y + s.vy * tb) - s.y = s.vy * tb := by ring
    rw [h1, h2, sqrt_vel_scale s.vx s.vy tb htb0, spd]
  have htbU : optMin (timeToBound s.x c.x_min c.x_max s.vx)
      (timeToBound s.y c.y_min c.y_max s.vy) = some tb := htb
  have hstep : marchStep c s =
      (if s.rem ≤ tb * spd s then
        StepRes.final (s.x + s.vx * (s.rem / spd s), s.y + s.vy * (s.rem / spd s))
      else
        StepRes.bounce (s.x + s.vx * tb, s.y + s.vy * tb)
          ⟨s.x + s.vx * tb, s.y + s.vy * tb,
            (reflect (txOf c s) (tyOf c s) s.vx s.vy).1,
            (reflect (txOf c s) (tyOf c s) s.vx s.vy).2,
            s.rem - tb * spd s⟩) := by
    unfold marchStep
    rw [if_neg (not_le.2 hrem)]
    simp only [htbU, hseg, spd, txOf, tyOf]
  -- positions stay inside the interval for any travel time in [0, tb]
  have hstay : ∀ u, 0 ≤ u → u ≤ tb →
      (c.x_min ≤ s.x + s.vx * u ∧ s.x + s.vx * u ≤ c.x_max) ∧
      (c.y_min ≤ s.y + s.vy * u ∧ s.y + s.vy * u ≤ c.y_max) := by
    intro u hu0 hutb
    constructor
    · cases hcx : txOf c s with
      | none =>
        have hvx : s.vx = 0 := timeToBound_none_velocity hcx hokx
        simp [hvx, hx0, hx1]
      | some t =>
        exact timeToBound_stay hcx hx0 hx1 hu0 (le_trans hutb (hlex t hcx))
    · cases hcy : tyOf c s with
      | none =>
        have hvy : s.vy = 0 := timeToBound_none_velocity hcy hoky
        simp [hvy, hy0, hy1]
      | some t =>
        exact timeToBound_stay hcy hy0 hy1 hu0 (le_trans hutb (hley t hcy))
  by_cases hfin : s.rem ≤ tb * spd s
  · left
    refine ⟨(s.x + s.vx * (s.rem / spd s), s.y + s.vy * (s.rem / spd s)),
      by rw [hstep, if_pos hfin], ?_, ?_⟩
    · have h1 : (s.x + s.vx * (s.rem / spd s)) - s.x = s.vx * (s.rem / spd s) := by ring
      have h2 : (s.y + s.vy * (s.rem / spd s)) - s.y = s.vy * (s.rem / spd s) := by ring
      have htf0 : 0 ≤ s.rem / spd s := div_nonneg (by linarith [epsilon_pos]) hspd.le
      simp only [h1, h2]
      rw [sqrt_vel_scale s.vx s.vy _ htf0]
      rw [show Real.sqrt (s.vx * s.vx + s.vy * s.vy) = spd s from rfl]
      field_simp
    · have htf0 : 0 ≤ s.rem / spd s := div_nonneg (by linarith [epsilon_pos]) hspd.le
      have htftb : s.rem / spd s ≤ tb := (div_le_iff₀ hspd).2 hfin
      obtain ⟨hxs, hys⟩ := hstay (s.rem / spd s) htf0 htftb
      exact ⟨hxs.1, hxs.2, hys.1, hys.2⟩
  · right
    set s' : St := ⟨s.x + s.vx * tb, s.y + s.vy * tb,
      (reflect (txOf c s) (tyOf c s) s.vx s.vy).1,
      (reflect (txOf c s) (tyOf c s) s.vx s.vy).2,
      s.rem - tb * spd s⟩ with hs'
    have hrem' : 0 < s'.rem := by
      simp only [hs']
      linarith [not_le.1 hfin]
    obtain ⟨hxs, hys⟩ := hstay tb htb0 le_rfl
    have hrc := reflect_cases (txOf c s) (tyOf c s) s.vx s.vy
    have hokx' : AxisOk s'.vx := AxisOk_of_pm hokx (by simpa [hs'] using hrc.1)
    have hoky' : AxisOk s'.vy := AxisOk_of_pm hoky (by simpa [hs'] using hrc.2)
    have hact' : epsilon < |s'.vx| ∨ epsilon < |s'.vy| := by
      rcases hact with h | h
      · exact Or.inl (by rw [abs_of_pm (show s'.vx = s.vx ∨ s'.vx = -s.vx from hrc.1)]; exact h)
      · exact Or.inr (by rw [abs_of_pm (show s'.vy = s.vy ∨ s'.vy = -s.vy from hrc.2)]; exact h)
    have hspd' : spd s' = spd s := by
      unfold spd
      rw [sq_of_pm (show s'.vx = s.vx ∨ s'.vx = -s.vx from hrc.1),
        sq_of_pm (show s'.vy = s.vy ∨ s'.vy = -s.vy from hrc.2)]
    refine ⟨tb, (s'.x, s'.y), s', ?_, htb, htb0, rfl, rfl, rfl, ?_, rfl, hrem', ?_, hspd', ?_⟩
    · rw [hstep, if_neg hfin]
    · exact Prod.ext rfl rfl
    · exact ⟨hxlt, hylt, hxs.1, hxs.2, hys.1, hys.2, hokx', hoky', hact'⟩
    · have h1 : s'.x - s.x = s.vx * tb := by
        show s.x + s.vx * tb - s.x = s.vx * tb
        ring
      have h2 : s'.y - s.y = s.vy * tb := by
        show s.y + s.vy * tb - s.y = s.vy * tb
        ring
      rw [h1, h2, sqrt_vel_scale s.vx s.vy tb htb0]
      rw [show Real.sqrt (s.vx * s.vx + s.vy * s.vy) = spd s from rfl]
      show tb * spd s = s.rem - (s.rem - tb * spd s)
      ring

lemma marchStep_exit_of_le {c : MotionPlanner} {s : St} (h : s.rem ≤ epsilon) :
    marchStep c s = .exit := by
  unfold marchStep
  rw [if_pos h]

lemma marchStep_of_exit {c : MotionPlanner} {s : St} (h : marchStep c s = .exit) :
    s.rem ≤ epsilon := by
  by_contra hlt
  unfold marchStep at h
  rw [if_neg hlt] at h
  cases hopt : optMin (timeToBound s.x c.x_min c.x_max s.vx)
      (timeToBound s.y c.y_min c.y_max s.vy) with
  | none =>
    simp only [hopt] at h
    exact StepRes.noConfusion h
  | some tb =>
    simp only [hopt] at h
    split at h
    · exact StepRes.noConfusion h
    · exact StepRes.noConfusion h

/-- C1 core: when the fuelled ray march finishes, the traversed path length
differs from the requested total distance only by the sub-epsilon leftover
the loop guard may discard. -/
lemma ray_march_length (c : MotionPlanner) :
    ∀ (n : Nat) (s : St) (ws : List (ℝ × ℝ)), Valid c s → 0 ≤ s.rem →
      ray_march c n s = some ws →
      ∃ leftover, 0 ≤ leftover ∧ leftover ≤ epsilon ∧
        pathLength (s.x, s.y) ws = s.rem - leftover := by
  intro n
  induction n with
  | zero =>
    intro s ws _ _ h
    simp [ray_march] at h
  | succ n ih =>
    intro s ws hv hrem0 h
    by_cases hrem : s.rem ≤ epsilon
    · simp only [ray_march] at h
      rw [marchStep_exit_of_le hrem] at h
      cases h
      exact ⟨s.rem, hrem0, hrem, by simp [pathLength]⟩
    · rcases marchStep_cases_spec c s hv (not_le.1 hrem) with
        ⟨p, hstep, hdist, _⟩ |
        ⟨tb, w, s', hstep, _, _, hw, _, _, _, _, hpos', hv', _, hdist⟩
      · simp only [ray_march] at h
        rw [hstep] at h
        cases h
        refine ⟨0, le_rfl, epsilon_pos.le, ?_⟩
        simp [pathLength, hdist]
      · simp only [ray_march] at h
        rw [hstep] at h
        obtain ⟨ws', hws', rfl⟩ := Option.map_eq_some'.1 h
        obtain ⟨leftover, hl0, hle, hlen⟩ := ih s' ws' hv' hpos'.le hws'
        refine ⟨leftover, hl0, hle, ?_⟩
        rw [hw]
        simp only [pathLength]
        rw [hdist]
        rw [show pathLength (s'.x, s'.y) ws' = s'.rem - leftover from hlen]
        ring

/-- C2 core: every waypoint the fuelled ray march emits lies inside the
boundary rectangle. -/
lemma ray_march_bounds (c : MotionPlanner) :
    ∀ (n : Nat) (s : St) (ws : List (ℝ × ℝ)), Valid c s →
      ray_march c n s = some ws →
      ∀ p ∈ ws, c.x_min ≤ p.1 ∧ p.1 ≤ c.x_max ∧ c.y_min ≤ p.2 ∧ p.2 ≤ c.y_max := by
  intro n
  induction n with
  | zero =>
    intro s ws _ h
    simp [ray_march] at h
  | succ n ih =>
    intro s ws hv h p hp
    by_cases hrem : s.rem ≤ epsilon
    · simp only [ray_march] at h
      rw [marchStep_exit_of_le hrem] at h
      cases h
      simp at hp
    · rcases marchStep_cases_spec c s hv (not_le.1 hrem) with
        ⟨q, hstep, _, hq1, hq2, hq3, hq4⟩ |
        ⟨tb, w, s', hstep, _, _, hw, _, _, _, _, _, hv', _, _⟩
      · simp only [ray_march] at h
        rw [hstep] at h
        cases h
        simp only [List.mem_singleton] at hp
        exact hp ▸ ⟨hq1, hq2, hq3, hq4⟩
      · simp only [ray_march] at h
        rw [hstep] at h
        obtain ⟨ws', hws', rfl⟩ := Option.map_eq_some'.1 h
        rcases List.mem_cons.1 hp with rfl | hp'
        · obtain ⟨_, _, h1, h2, h3, h4, _⟩ := hv'
          rw [hw]
          exact ⟨h1, h2, h3, h4⟩
        · exact ih s' ws' hv' hws' p hp'

/-- The probabilistic direction choice only ever returns 1 or -1. -/
lemma choose_pm (r pos lo hi steep : ℝ) :
    choose_direction_probabilistic r pos lo hi steep = 1 ∨
      choose_direction_probabilistic r pos lo hi steep = -1 := by
  unfold choose_direction_probabilistic
  by_cases h : r < 1.0 / (1.0 + Real.exp (steep * ((pos - lo) / (hi - lo) - 0.5)))
  · exact Or.inl (by simp [h])
  · exact Or.inr (by simp [h])

/-- The direction actually used for an axis: the override when supplied,
else a probabilistic draw; in both cases it is 1 or -1 provided the
override is. -/
lemma dir_pm (ov : Option Int) (r pos lo hi steep : ℝ)
    (hov : ∀ d, ov = some d → d = 1 ∨ d = -1) :
    (match ov with
      | some d => d
      | none => choose_direction_probabilistic r pos lo hi steep) = 1 ∨
    (match ov with
      | some d => d
      | none => choose_direction_probabilistic r pos lo hi steep) = -1 := by
  cases ov with
  | none => exact choose_pm r pos lo hi steep
  | some d => exact hov d rfl

lemma signed_sq {v : ℝ} {d : Int} (hd : d = 1 ∨ d = -1) :
    (v * (d : ℝ)) * (v * (d : ℝ)) = v * v := by
  rcases hd with rfl | rfl <;> push_cast <;> ring

lemma signed_abs {v : ℝ} {d : Int} (hd : d = 1 ∨ d = -1) : |v * (d : ℝ)| = |v| := by
  rcases hd with rfl | rfl <;> push_cast <;> simp

/-- Fuelled-march totality of the path length, stated over arbitrary signed
velocity components that are zero or live. -/
lemma march_total_path (c : MotionPlanner) (vx vy duration x0 y0 : ℝ)
    (fuel : Nat) (ws : List (ℝ × ℝ))
    (hxlt : c.x_min < c.x_max) (hylt : c.y_min < c.y_max)
    (hx0 : c.x_min ≤ x0) (hx1 : x0 ≤ c.x_max)
    (hy0 : c.y_min ≤ y0) (hy1 : y0 ≤ c.y_max)
    (hdur : 0 ≤ duration) (hokx : AxisOk vx) (hoky : AxisOk vy)
    (h : ray_march c fuel ⟨x0, y0, vx, vy,
      Real.sqrt (vx * vx + vy * vy) * duration⟩ = some ws) :
    |pathLength (x0, y0) ws - Real.sqrt (vx * vx + vy * vy) * duration| ≤ epsilon := by
  by_cases hact : epsilon < |vx| ∨ epsilon < |vy|
  · have hv : Valid c ⟨x0, y0, vx, vy, Real.sqrt (vx * vx + vy * vy) * duration⟩ :=
      ⟨hxlt, hylt, hx0, hx1, hy0, hy1, hokx, hoky, hact⟩
    have hrem0 : (0 : ℝ) ≤ Real.sqrt (vx * vx + vy * vy) * duration :=
      mul_nonneg (Real.sqrt_nonneg _) hdur
    obtain ⟨leftover, hl0, hle, hlen⟩ := ray_march_length c fuel _ ws hv hrem0 h
    rw [show pathLength (x0, y0) ws =
      Real.sqrt (vx * vx + vy * vy) * duration - leftover from hlen]
    rw [show Real.sqrt (vx * vx + vy * vy) * duration - leftover -
      Real.sqrt (vx * vx + vy * vy) * duration = -leftover by ring]
    rw [abs_neg, abs_of_nonneg hl0]
    exact hle
  · push_neg at hact
    have hvx : vx = 0 := by
      rcases hokx with h0 | hl
      · exact h0
      · exact absurd hl (not_lt.2 hact.1)
    have hvy : vy = 0 := by
      rcases hoky with h0 | hl
      · exact h0
      · exact absurd hl (not_lt.2 hact.2)
    subst hvx hvy
    have hz : Real.sqrt ((0 : ℝ) * 0 + 0 * 0) * duration = 0 := by
      simp
    rw [hz] at h ⊢
    match fuel, h with
    | n + 1, h =>
      simp only [ray_march] at h
      rw [marchStep_exit_of_le (by simpa using epsilon_pos.le)] at h
      cases h
      simp [pathLength, epsilon_pos.le]

/-- Fuelled-march boundary safety, stated over arbitrary signed velocity
components that are zero or live. -/
lemma march_bounds (c : MotionPlanner) (vx vy rem x0 y0 : ℝ)
    (fuel : Nat) (ws : List (ℝ × ℝ))
    (hxlt : c.x_min < c.x_max) (hylt : c.y_min < c.y_max)
    (hx0 : c.x_min ≤ x0) (hx1 : x0 ≤ c.x_max)
    (hy0 : c.y_min ≤ y0) (hy1 : y0 ≤ c.y_max)
    (hokx : AxisOk vx) (hoky : AxisOk vy)
    (h : ray_march c fuel ⟨x0, y0, vx, vy, rem⟩ = some ws) :
    ∀ p ∈ ws, c.x_min ≤ p.1 ∧ p.1 ≤ c.x_max ∧ c.y_min ≤ p.2 ∧ p.2 ≤ c.y_max := by
  by_cases hact : epsilon < |vx| ∨ epsilon < |vy|
  · exact ray_march_bounds c fuel _ ws
      ⟨hxlt, hylt, hx0, hx1, hy0, hy1, hokx, hoky, hact⟩ h
  · push_neg at hact
    have hvx : vx = 0 := by
      rcases hokx with h0 | hl
      · exact h0
      · exact absurd hl (not_lt.2 hact.1)
    have hvy : vy = 0 := by
      rcases hoky with h0 | hl
      · exact h0
      · exact absurd hl (not_lt.2 hact.2)
    subst hvx hvy
    match fuel, h with
    | n + 1, h =>
      simp only [ray_march] at h
      by_cases hrem : rem ≤ epsilon
      · rw [marchStep_exit_of_le hrem] at h
        cases h
        intro p hp
        simp at hp
      · have hopt : optMin (timeToBound x0 c.x_min c.x_max (0 : ℝ))
            (timeToBound y0 c.y_min c.y_max (0 : ℝ)) = none := by
          rw [timeToBound_of_zero, timeToBound_of_zero]
          rfl
        have hstuck : marchStep c ⟨x0, y0, 0, 0, rem⟩ = .stuck := by
          unfold marchStep
          rw [if_neg hrem]
          simp only [hopt]
        rw [hstuck] at h
        cases h
        intro p hp
        simp at hp

/-- Core of the plan destructuring when only the Y axis is active. -/
lemma plan_destruct_y_core (c : MotionPlanner) (fy duration x0 y0 : ℝ) (dY : Int)
    (fuel : Nat) (ws : List (ℝ × ℝ))
    (hvy : epsilon < frequency_to_velocity .Y fy) (hdY : dY = 1 ∨ dY = -1)
    (hrm : ray_march c fuel ⟨x0, y0, 0.0, frequency_to_velocity .Y fy * (dY : ℝ),
      Real.sqrt (0.0 * 0.0 + frequency_to_velocity .Y fy * frequency_to_velocity .Y fy) *
        duration⟩ = some ws) :
    ∃ svx svy, AxisOk svx ∧ AxisOk svy ∧
      Real.sqrt (svx * svx + svy * svy) = specSpeed none (some fy) ∧
      ray_march c fuel ⟨x0, y0, svx, svy, specSpeed none (some fy) * duration⟩ = some ws ∧
      Real.sqrt (0.0 * 0.0 + frequency_to_velocity .Y fy * frequency_to_velocity .Y fy) *
        60.0 = specSpeed none (some fy) * 60.0 := by
  have habs : |frequency_to_velocity .Y fy * (dY : ℝ)| = frequency_to_velocity .Y fy :=
    (signed_abs hdY).trans (abs_of_pos (lt_trans epsilon_pos hvy))
  have hspec : specSpeed none (some fy) =
      Real.sqrt ((0.0 : ℝ) * 0.0 +
        frequency_to_velocity .Y fy * frequency_to_velocity .Y fy) := by
    norm_num [specSpeed, frequency_to_velocity]
  refine ⟨0.0, frequency_to_velocity .Y fy * (dY : ℝ),
    Or.inl (by norm_num), Or.inr (by rw [habs]; exact hvy), ?_, ?_, by rw [hspec]⟩
  · rw [signed_sq hdY, hspec]
  · rw [hspec]
    exact hrm

/-- Core of the plan destructuring when only the X axis is active. -/
lemma plan_destruct_x_core (c : MotionPlanner) (fx duration x0 y0 : ℝ) (dX : Int)
    (fuel : Nat) (ws : List (ℝ × ℝ))
    (hvx : epsilon < frequency_to_velocity .X fx) (hdX : dX = 1 ∨ dX = -1)
    (hrm : ray_march c fuel ⟨x0, y0, frequency_to_velocity .X fx * (dX : ℝ), 0.0,
      Real.sqrt (frequency_to_velocity .X fx * frequency_to_velocity .X fx + 0.0 * 0.0) *
        duration⟩ = some ws) :
    ∃ svx svy, AxisOk svx ∧ AxisOk svy ∧
      Real.sqrt (svx * svx + svy * svy) = specSpeed (some fx) none ∧
      ray_march c fuel ⟨x0, y0, svx, svy, specSpeed (some fx) none * duration⟩ = some ws ∧
      Real.sqrt (frequency_to_velocity .X fx * frequency_to_velocity .X fx + 0.0 * 0.0) *
        60.0 = specSpeed (some fx) none * 60.0 := by
  have habs : |frequency_to_velocity .X fx * (dX : ℝ)| = frequency_to_velocity .X fx :=
    (signed_abs hdX).trans (abs_of_pos (lt_trans epsilon_pos hvx))
  have hspec : specSpeed (some fx) none =
      Real.sqrt (frequency_to_velocity .X fx * frequency_to_velocity .X fx +
        (0.0 : ℝ) * 0.0) := by
    norm_num [specSpeed, frequency_to_velocity]
  refine ⟨frequency_to_velocity .X fx * (dX : ℝ), 0.0,
    Or.inr (by rw [habs]; exact hvx), Or.inl (by norm_num), ?_, ?_, by rw [hspec]⟩
  · rw [signed_sq hdX, hspec]
  · rw [hspec]
    exact hrm

/-- Core of the plan destructuring when both axes are active. -/
lemma plan_destruct_xy_core (c : MotionPlanner) (fx fy duration x0 y0 : ℝ)
    (dX dY : Int) (fuel : Nat) (ws : List (ℝ × ℝ))
    (hvx : epsilon < frequency_to_velocity .X fx)
    (hvy : epsilon < frequency_to_velocity .Y fy)
    (hdX : dX = 1 ∨ dX = -1) (hdY : dY = 1 ∨ dY = -1)
    (hrm : ray_march c fuel ⟨x0, y0, frequency_to_velocity .X fx * (dX : ℝ),
      frequency_to_velocity .Y fy * (dY : ℝ),
      Real.sqrt (frequency_to_velocity .X fx * frequency_to_velocity .X fx +
        frequency_to_velocity .Y fy * frequency_to_velocity .Y fy) *
        duration⟩ = some ws) :
    ∃ svx svy, AxisOk svx ∧ AxisOk svy ∧
      Real.sqrt (svx * svx + svy * svy) = specSpeed (some fx) (some fy) ∧
      ray_march c fuel ⟨x0, y0, svx, svy,
        specSpeed (some fx) (some fy) * duration⟩ = some ws ∧
      Real.sqrt (frequency_to_velocity .X fx * frequency_to_velocity .X fx +
        frequency_to_velocity .Y fy * frequency_to_velocity .Y fy) * 60.0 =
        specSpeed (some fx) (some fy) * 60.0 := by
  have habsx : |frequency_to_velocity .X fx * (dX : ℝ)| = frequency_to_velocity .X fx :=
    (signed_abs hdX).trans (abs_of_pos (lt_trans epsilon_pos hvx))
  have habsy : |frequency_to_velocity .Y fy * (dY : ℝ)| = frequency_to_velocity .Y fy :=
    (signed_abs hdY).trans (abs_of_pos (lt_trans epsilon_pos hvy))
  have hspec : specSpeed (some fx) (some fy) =
      Real.sqrt (frequency_to_velocity .X fx * frequency_to_velocity .X fx +
        frequency_to_velocity .Y fy * frequency_to_velocity .Y fy) := by
    norm_num [specSpeed, frequency_to_velocity]
  refine ⟨frequency_to_velocity .X fx * (dX : ℝ), frequency_to_velocity .Y fy * (dY : ℝ),
    Or.inr (by rw [habsx]; exact hvx), Or.inr (by rw [habsy]; exact hvy), ?_, ?_,
    by rw [hspec]⟩
  · rw [signed_sq hdX, signed_sq hdY, hspec]
  · rw [hspec]
    exact hrm

/-- Inverting the final match of `plan_movement`. -/
lemma plan_match_inv {c : MotionPlanner} {fuel : Nat} {S : St} {F : ℝ}
    {dxv dyv : Option Int} {ws : List (ℝ × ℝ)} {fr : ℝ} {dx dy : Option Int}
    (h : (match ray_march c fuel S with
        | none => none
        | some waypoints => some (waypoints, F, dxv, dyv)) = some (ws, fr, dx, dy)) :
    ray_march c fuel S = some ws ∧ fr = F ∧ dx = dxv ∧ dy = dyv := by
  cases hrm : ray_march c fuel S with
  | none => rw [hrm] at h; cases h
  | some w =>
    rw [hrm] at h
    cases h
    exact ⟨rfl, rfl, rfl, rfl⟩

/-- Destructuring `plan_movement`: a produced plan comes from a ray march
whose signed velocity components square to the claim's velocity components,
whose total distance is the claim's speed times the duration, and whose
feedrate is the claim's speed times 60. -/
lemma plan_movement_destruct (c : MotionPlanner) (freq_x freq_y : Option ℝ)
    (duration x0 y0 : ℝ) (override_dir_x override_dir_y : Option Int)
    (rx ry : ℝ) (fuel : Nat) (ws : List (ℝ × ℝ)) (fr : ℝ) (dx dy : Option Int)
    (hfx : ∀ f, freq_x = some f → epsilon < frequency_to_velocity .X f)
    (hfy : ∀ f, freq_y = some f → epsilon < frequency_to_velocity .Y f)
    (hox : ∀ d, override_dir_x = some d → d = 1 ∨ d = -1)
    (hoy : ∀ d, override_dir_y = some d → d = 1 ∨ d = -1)
    (hplan : plan_movement c freq_x freq_y duration x0 y0
      override_dir_x override_dir_y rx ry fuel = some (ws, fr, dx, dy)) :
    ∃ svx svy, AxisOk svx ∧ AxisOk svy ∧
      Real.sqrt (svx * svx + svy * svy) = specSpeed freq_x freq_y ∧
      ray_march c fuel ⟨x0, y0, svx, svy, specSpeed freq_x freq_y * duration⟩ = some ws ∧
      fr = specSpeed freq_x freq_y * 60.0 := by
  rcases freq_x with _ | fx <;> rcases freq_y with _ | fy
  · -- no active axis
    simp only [plan_movement] at hplan
    obtain ⟨hrm, hfr, hdx, hdy⟩ := plan_match_inv hplan
    subst hfr
    have hspec : specSpeed none none = Real.sqrt ((0.0 : ℝ) * 0.0 + 0.0 * 0.0) := by
      norm_num [specSpeed]
    exact ⟨0.0, 0.0, Or.inl (by norm_num), Or.inl (by norm_num),
      by rw [hspec], by rw [hspec]; exact hrm, by rw [hspec]⟩
  · -- Y only
    rcases override_dir_y with _ | d <;>
    · simp only [plan_movement] at hplan
      obtain ⟨hrm, hfr, hdx, hdy⟩ := plan_match_inv hplan
      subst hfr
      first
      | exact plan_destruct_y_core c fy duration x0 y0 _ fuel ws (hfy fy rfl)
          (choose_pm ry y0 c.y_min c.y_max 10.0) hrm
      | exact plan_destruct_y_core c fy duration x0 y0 _ fuel ws (hfy fy rfl)
          (hoy d rfl) hrm
  · -- X only
    rcases override_dir_x with _ | d <;>
    · simp only [plan_movement] at hplan
      obtain ⟨hrm, hfr, hdx, hdy⟩ := plan_match_inv hplan
      subst hfr
      first
      | exact plan_destruct_x_core c fx duration x0 y0 _ fuel ws (hfx fx rfl)
          (choose_pm rx x0 c.x_min c.x_max 10.0) hrm
      | exact plan_destruct_x_core c fx duration x0 y0 _ fuel ws (hfx fx rfl)
          (hox d rfl) hrm
  · -- both axes
    rcases override_dir_x with _ | d <;> rcases override_dir_y with _ | e <;>
    · simp only [plan_movement] at hplan
      obtain ⟨hrm, hfr, hdx, hdy⟩ := plan_match_inv hplan
      subst hfr
      first
      | exact plan_destruct_xy_core c fx fy duration x0 y0 _ _ fuel ws
          (hfx fx rfl) (hfy fy rfl) (choose_pm rx x0 c.x_min c.x_max 10.0)
          (choose_pm ry y0 c.y_min c.y_max 10.0) hrm
      | exact plan_destruct_xy_core c fx fy duration x0 y0 _ _ fuel ws
          (hfx fx rfl) (hfy fy rfl) (hox d rfl)
          (choose_pm ry y0 c.y_min c.y_max 10.0) hrm
      | exact plan_destruct_xy_core c fx fy duration x0 y0 _ _ fuel ws
          (hfx fx rfl) (hfy fy rfl) (choose_pm rx x0 c.x_min c.x_max 10.0)
          (hoy e rfl) hrm
      | exact plan_destruct_xy_core c fx fy duration x0 y0 _ _ fuel ws
          (hfx fx rfl) (hfy fy rfl) (hox d rfl) (hoy e rfl) hrm

/-- Explicit equation for one live loop iteration, used to evaluate the
march on concrete inputs. -/
lemma marchStep_run (c : MotionPlanner) (s : St) (tb : ℝ) (hv : Valid c s)
    (hrem : epsilon < s.rem)
    (htb : optMin (txOf c s) (tyOf c s) = some tb) :
    marchStep c s =
      (if s.rem ≤ tb * spd s then
        StepRes.final (s.x + s.vx * (s.rem / spd s), s.y + s.vy * (s.rem / spd s))
      else
        StepRes.bounce (s.x + s.vx * tb, s.y + s.vy * tb)
          ⟨s.x + s.vx * tb, s.y + s.vy * tb,
            (reflect (txOf c s) (tyOf c s) s.vx s.vy).1,
            (reflect (txOf c s) (tyOf c s) s.vx s.vy).2,
            s.rem - tb * spd s⟩) := by
  obtain ⟨hxlt, hylt, hx0, hx1, hy0, hy1, hokx, hoky, hact⟩ := hv
  have htb0 : 0 ≤ tb := by
    obtain ⟨hor, _, _⟩ := optMin_cases htb
    rcases hor with h | h
    · exact timeToBound_nonneg h hx0 hx1
    · exact timeToBound_nonneg h hy0 hy1
  have hseg : Real.sqrt (((s.x + s.vx * tb) - s.x) * ((s.x + s.vx * tb) - s.x) +
      ((s.y + s.vy * tb) - s.y) * ((s.y + s.vy * tb) - s.y)) = tb * spd s := by
    have h1 : (s.x + s.vx * tb) - s.x = s.vx * tb := by ring
    have h2 : (s.y + s.vy * tb) - s.y = s.vy * tb := by ring
    rw [h1, h2, sqrt_vel_scale s.vx s.vy tb htb0, spd]
  have htbU : optMin (timeToBound s.x c.x_min c.x_max s.vx)
      (timeToBound s.y c.y_min c.y_max s.vy) = some tb := htb
  unfold marchStep
  rw [if_neg (not_le.2 hrem)]
  simp only [htbU, hseg, spd, txOf, tyOf]

/-- C1: a plan produced by `plan_movement` from a start inside the safe
intervals, with each requested frequency fast enough to clear the epsilon
guard and any direction overrides being ±1, traverses a total Euclidean
path length equal to `speed × duration` within 1e-6 — where `speed` is the
magnitude of the velocity vector built from `frequency / steps_per_unit`
on active axes and 0 on inactive ones — and its feedrate is exactly
`speed × 60`. -/
theorem plan_movement_total_path (c : MotionPlanner) (freq_x freq_y : Option ℝ)
    (duration x0 y0 : ℝ) (override_dir_x override_dir_y : Option Int)
    (rx ry : ℝ) (fuel : Nat) (ws : List (ℝ × ℝ)) (fr : ℝ) (dx dy : Option Int)
    (hxlt : c.x_min < c.x_max) (hylt : c.y_min < c.y_max)
    (hx0 : c.x_min ≤ x0) (hx1 : x0 ≤ c.x_max)
    (hy0 : c.y_min ≤ y0) (hy1 : y0 ≤ c.y_max)
    (hdur : 0 < duration)
    (hfx : ∀ f, freq_x = some f → epsilon < frequency_to_velocity .X f)
    (hfy : ∀ f, freq_y = some f → epsilon < frequency_to_velocity .Y f)
    (hox : ∀ d, override_dir_x = some d → d = 1 ∨ d = -1)
    (hoy : ∀ d, override_dir_y = some d → d = 1 ∨ d = -1)
    (hplan : plan_movement c freq_x freq_y duration x0 y0
      override_dir_x override_dir_y rx ry fuel = some (ws, fr, dx, dy)) :
    |pathLength (x0, y0) ws - specSpeed freq_x freq_y * duration| ≤ 1e-6 ∧
    fr = specSpeed freq_x freq_y * 60 := by
  obtain ⟨svx, svy, hokx, hoky, hsq, hrm, hfr⟩ :=
    plan_movement_destruct c freq_x freq_y duration x0 y0 override_dir_x override_dir_y
      rx ry fuel ws fr dx dy hfx hfy hox hoy hplan
  constructor
  · have hrm2 : ray_march c fuel
        ⟨x0, y0, svx, svy, Real.sqrt (svx * svx + svy * svy) * duration⟩ = some ws := by
      rw [hsq]
      exact hrm
    have h := march_total_path c svx svy duration x0 y0 fuel ws
      hxlt hylt hx0 hx1 hy0 hy1 hdur.le hokx hoky hrm2
    rw [← hsq]
    rw [show (1e-6 : ℝ) = epsilon from rfl]
    exact h
  · rw [hfr]
    norm_num

/-- C2: every waypoint of a plan produced by `plan_movement` from a start
inside the safe intervals (same validity hypotheses as C1) lies within
`[min, max]` inclusive on both axes — in particular on every engaged
axis. -/
theorem plan_movement_waypoints_safe (c : MotionPlanner) (freq_x freq_y : Option ℝ)
    (duration x0 y0 : ℝ) (override_dir_x override_dir_y : Option Int)
    (rx ry : ℝ) (fuel : Nat) (ws : List (ℝ × ℝ)) (fr : ℝ) (dx dy : Option Int)
    (hxlt : c.x_min < c.x_max) (hylt : c.y_min < c.y_max)
    (hx0 : c.x_min ≤ x0) (hx1 : x0 ≤ c.x_max)
    (hy0 : c.y_min ≤ y0) (hy1 : y0 ≤ c.y_max)
    (hfx : ∀ f, freq_x = some f → epsilon < frequency_to_velocity .X f)
    (hfy : ∀ f, freq_y = some f → epsilon < frequency_to_velocity .Y f)
    (hox : ∀ d, override_dir_x = some d → d = 1 ∨ d = -1)
    (hoy : ∀ d, override_dir_y = some d → d = 1 ∨ d = -1)
    (hplan : plan_movement c freq_x freq_y duration x0 y0
      override_dir_x override_dir_y rx ry fuel = some (ws, fr, dx, dy)) :
    ∀ p ∈ ws, c.x_min ≤ p.1 ∧ p.1 ≤ c.x_max ∧ c.y_min ≤ p.2 ∧ p.2 ≤ c.y_max := by
  obtain ⟨svx, svy, hokx, hoky, hsq, hrm, hfr⟩ :=
    plan_movement_destruct c freq_x freq_y duration x0 y0 override_dir_x override_dir_y
      rx ry fuel ws fr dx dy hfx hfy hox hoy hplan
  exact march_bounds c svx svy (specSpeed freq_x freq_y * duration) x0 y0 fuel ws
    hxlt hylt hx0 hx1 hy0 hy1 hokx hoky hrm

/-- Numeric helper: the speed of the 440 Hz X-axis scenario is 5.5 mm/s. -/
lemma scenA_sqrt : Real.sqrt (frequency_to_velocity .X 440 *
    frequency_to_velocity .X 440 + 0.0 * 0.0) = 5.5 := by
  rw [show frequency_to_velocity .X 440 * frequency_to_velocity .X 440 + 0.0 * 0.0 =
    (5.5 : ℝ) ^ 2 by norm_num [frequency_to_velocity, STEPS_PER_MM]]
  exact Real.sqrt_sq (by norm_num)

/-- Evaluation of the ray march in the 440 Hz scenario with plain numerals:
one waypoint, no bounce. -/
lemma scenA_march_simple :
    ray_march ⟨10, 225, 10, 225⟩ 1 ⟨200, 100, 5.5, 0, 5.5⟩ = some [(205.5, 100)] := by
  have habs : |(5.5 : ℝ)| = 5.5 := abs_of_pos (by norm_num)
  have heps : epsilon < (5.5 : ℝ) := by norm_num [epsilon]
  have hv : Valid ⟨10, 225, 10, 225⟩ ⟨200, 100, 5.5, 0, 5.5⟩ := by
    refine ⟨by norm_num, by norm_num, by norm_num, by norm_num, by norm_num, by norm_num,
      Or.inr ?_, Or.inl rfl, Or.inl ?_⟩ <;>
    · show epsilon < |(5.5 : ℝ)|
      rw [habs]
      exact heps
  have htx : timeToBound (200 : ℝ) 10 225 5.5 = some ((225 - 200) / 5.5) := by
    rw [timeToBound_of_live _ _ _ (by rw [habs]; exact heps)]
    rw [if_pos (by norm_num : (0 : ℝ) < 5.5)]
  have hty : timeToBound (100 : ℝ) 10 225 (0 : ℝ) = none := timeToBound_of_zero _ _ _
  have htb : optMin (txOf ⟨10, 225, 10, 225⟩ ⟨200, 100, 5.5, 0, 5.5⟩)
      (tyOf ⟨10, 225, 10, 225⟩ ⟨200, 100, 5.5, 0, 5.5⟩) = some ((225 - 200) / 5.5) := by
    show optMin (timeToBound (200 : ℝ) 10 225 5.5) (timeToBound (100 : ℝ) 10 225 0) = _
    rw [htx, hty]
    rfl
  have hspd : spd ⟨200, 100, 5.5, 0, 5.5⟩ = 5.5 := by
    show Real.sqrt ((5.5 : ℝ) * 5.5 + 0 * 0) = 5.5
    rw [show (5.5 : ℝ) * 5.5 + 0 * 0 = (5.5 : ℝ) ^ 2 by norm_num]
    exact Real.sqrt_sq (by norm_num)
  have hstep := marchStep_run ⟨10, 225, 10, 225⟩ ⟨200, 100, 5.5, 0, 5.5⟩
    ((225 - 200) / 5.5) hv (by show epsilon < (5.5 : ℝ); exact heps) htb
  rw [hspd] at hstep
  rw [if_pos (by norm_num : (5.5 : ℝ) ≤ (225 - 200) / 5.5 * 5.5)] at hstep
  have hpt : ((200 : ℝ) + 5.5 * (5.5 / 5.5), (100 : ℝ) + 0 * (5.5 / 5.5)) =
      ((205.5 : ℝ), (100 : ℝ)) := by norm_num
  rw [show ((⟨200, 100, 5.5, 0, 5.5⟩ : St).x + (⟨200, 100, 5.5, 0, 5.5⟩ : St).vx *
      ((⟨200, 100, 5.5, 0, 5.5⟩ : St).rem / 5.5),
      (⟨200, 100, 5.5, 0, 5.5⟩ : St).y + (⟨200, 100, 5.5, 0, 5.5⟩ : St).vy *
      ((⟨200, 100, 5.5, 0, 5.5⟩ : St).rem / 5.5)) = ((205.5 : ℝ), (100 : ℝ)) from hpt] at hstep
  show (match marchStep ⟨10, 225, 10, 225⟩ ⟨200, 100, 5.5, 0, 5.5⟩ with
    | .exit => some []
    | .stuck => some []
    | .final p => some [p]
    | .bounce w s' => (ray_march ⟨10, 225, 10, 225⟩ 0 s').map (fun ws => w :: ws)) =
    some [((205.5 : ℝ), (100 : ℝ))]
  rw [hstep]

/-- Evaluation of the ray march in the shape `plan_movement` produces it. -/
lemma scenA_march :
    ray_march ⟨10, 225, 10, 225⟩ 1
      ⟨200, 100, frequency_to_velocity .X 440 * ((1 : Int) : ℝ), 0.0,
        Real.sqrt (frequency_to_velocity .X 440 * frequency_to_velocity .X 440 +
          0.0 * 0.0) * 1⟩ = some [(205.5, 100)] := by
  rw [show (⟨200, 100, frequency_to_velocity .X 440 * ((1 : Int) : ℝ), 0.0,
      Real.sqrt (frequency_to_velocity .X 440 * frequency_to_velocity .X 440 +
        0.0 * 0.0) * 1⟩ : St) = ⟨200, 100, 5.5, 0, 5.5⟩ by
    have h5 : Real.sqrt (frequency_to_velocity .X 440 * frequency_to_velocity .X 440 +
        0.0 * 0.0) * 1 = 5.5 := by
      rw [scenA_sqrt]
      norm_num
    have h3 : frequency_to_velocity .X 440 * ((1 : Int) : ℝ) = 5.5 := by
      norm_num [frequency_to_velocity, STEPS_PER_MM]
    simp only [St.mk.injEq, h3, h5]
    norm_num]
  exact scenA_march_simple

/-- The 440 Hz scenario plan: one waypoint at 205.5 mm, feedrate 330. -/
lemma scenA_plan :
    plan_movement ⟨10, 225, 10, 225⟩ (some 440) none 1 200 100 (some 1) none 0 0 1 =
      some ([((205.5 : ℝ), (100 : ℝ))], 330, some 1, none) := by
  simp only [plan_movement]
  rw [scenA_march]
  rw [scenA_sqrt]
  norm_num

/-- Witness for C1: the 440 Hz, 1 s plan from X=200 produces the single
waypoint (205.5, 100), total path length within 1e-6 of speed times
duration, and feedrate `speed × 60 = 330`. -/
theorem plan_movement_total_path_witness :
    plan_movement ⟨10, 225, 10, 225⟩ (some 440) none 1 200 100 (some 1) none 0 0 1 =
      some ([((205.5 : ℝ), (100 : ℝ))], 330, some 1, none) ∧
    |pathLength (200, 100) [((205.5 : ℝ), (100 : ℝ))] - specSpeed (some 440) none * 1| ≤ 1e-6 ∧
    (330 : ℝ) = specSpeed (some 440) none * 60 := by
  refine ⟨scenA_plan, ?_⟩
  exact plan_movement_total_path ⟨10, 225, 10, 225⟩ (some 440) none 1 200 100
    (some 1) none 0 0 1 [((205.5 : ℝ), (100 : ℝ))] 330 (some 1) none
    (by norm_num) (by norm_num) (by norm_num) (by norm_num) (by norm_num) (by norm_num)
    (by norm_num)
    (by intro f hf; cases hf; norm_num [frequency_to_velocity, STEPS_PER_MM, epsilon])
    (by intro f hf; cases hf)
    (by intro d hd; cases hd; exact Or.inl rfl)
    (by intro d hd; cases hd)
    scenA_plan

/-- Witness for C2: the waypoint of the 440 Hz scenario plan lies inside
the safe interval on both axes. -/
theorem plan_movement_waypoints_safe_witness :
    (10 : ℝ) ≤ 205.5 ∧ (205.5 : ℝ) ≤ 225 ∧ (10 : ℝ) ≤ 100 ∧ (100 : ℝ) ≤ 225 := by
  exact plan_movement_waypoints_safe ⟨10, 225, 10, 225⟩ (some 440) none 1 200 100
    (some 1) none 0 0 1 [((205.5 : ℝ), (100 : ℝ))] 330 (some 1) none
    (by norm_num) (by norm_num) (by norm_num) (by norm_num) (by norm_num) (by norm_num)
    (by intro f hf; cases hf; norm_num [frequency_to_velocity, STEPS_PER_MM, epsilon])
    (by intro f hf; cases hf)
    (by intro d hd; cases hd; exact Or.inl rfl)
    (by intro d hd; cases hd)
    scenA_plan ((205.5 : ℝ), (100 : ℝ)) (by simp)

/-- Inversion of a bounce step: the waypoint sits at the bounce time along
the current velocity, the new state starts there with reflected velocity,
and the segment length was deducted. -/
lemma marchStep_bounce_inv (c : MotionPlanner) (s : St) (wx wy : ℝ) (s' : St)
    (hv : Valid c s) (h : marchStep c s = .bounce (wx, wy) s') :
    ∃ tb, optMin (txOf c s) (tyOf c s) = some tb ∧ 0 ≤ tb ∧
      wx = s.x + s.vx * tb ∧ wy = s.y + s.vy * tb ∧
      s'.x = wx ∧ s'.y = wy ∧
      (s'.vx, s'.vy) = reflect (txOf c s) (tyOf c s) s.vx s.vy ∧
      s'.rem = s.rem - tb * spd s ∧ epsilon < s.rem ∧ spd s' = spd s ∧
      tb * spd s < s.rem := by
  have hrem : epsilon < s.rem := by
    by_contra hle
    rw [marchStep_exit_of_le (not_lt.1 hle)] at h
    exact StepRes.noConfusion h
  obtain ⟨tb, htb, htb0, _, _, _⟩ := tb_spec c s hv
  have hrun := marchStep_run c s tb hv hrem htb
  rw [hrun] at h
  by_cases hfin : s.rem ≤ tb * spd s
  · rw [if_pos hfin] at h
    exact StepRes.noConfusion h
  · rw [if_neg hfin] at h
    injection h with h1 h2
    obtain ⟨hwx, hwy⟩ := Prod.mk.injEq .. ▸ h1
    have hrc := reflect_cases (txOf c s) (tyOf c s) s.vx s.vy
    have hvx' : s'.vx = s.vx ∨ s'.vx = -s.vx := by
      rw [← h2]
      exact hrc.1
    have hvy' : s'.vy = s.vy ∨ s'.vy = -s.vy := by
      rw [← h2]
      exact hrc.2
    refine ⟨tb, htb, htb0, hwx.symm, hwy.symm, ?_, ?_, ?_, ?_, hrem, ?_, not_le.1 hfin⟩
    · rw [← h2, hwx]
    · rw [← h2, hwy]
    · rw [← h2]
    · rw [← h2]
    · unfold spd
      rw [sq_of_pm hvx', sq_of_pm hvy']

/-- States of the ray-march loop reachable from a start state through
bounce iterations. -/
inductive Reaches (c : MotionPlanner) : St → St → Prop
  | refl (s : St) : Reaches c s s
  | step {s₁ s₂ : St} (w : ℝ × ℝ) {s₃ : St} :
      Reaches c s₁ s₂ → marchStep c s₂ = .bounce w s₃ → Reaches c s₁ s₃

/-- The loop invariant holds at every reachable state. -/
lemma reaches_valid {c : MotionPlanner} {s s' : St} (hv : Valid c s)
    (h : Reaches c s s') : Valid c s' := by
  induction h with
  | refl => exact hv
  | step w hr hstep ih =>
    rename_i s2 s3
    have hrem : epsilon < s2.rem := by
      by_contra hle
      rw [marchStep_exit_of_le (not_lt.1 hle)] at hstep
      exact StepRes.noConfusion hstep
    rcases marchStep_cases_spec c _ ih hrem with
      ⟨p, hfin, _⟩ | ⟨tb, w', s'', hb, _, _, _, _, _, _, _, _, hv'', _, _⟩
    · rw [hfin] at hstep
      exact StepRes.noConfusion hstep
    · rw [hb] at hstep
      injection hstep with _ h2
      exact h2 ▸ hv''

/-- Flip behaviour of one bounce: on a corner hit (times within epsilon)
both velocity signs flip; otherwise exactly the axis whose boundary time
was smaller flips, the emitted waypoint lies exactly on that axis's
boundary in the travel direction, and the other axis keeps its sign. -/
lemma marchStep_bounce_flip (c : MotionPlanner) (s : St) (wx wy : ℝ) (s' : St)
    (hv : Valid c s) (h : marchStep c s = .bounce (wx, wy) s') :
    (∃ tx ty, txOf c s = some tx ∧ tyOf c s = some ty ∧ |tx - ty| < epsilon ∧
      s'.vx = -s.vx ∧ s'.vy = -s.vy) ∨
    (s'.vx = -s.vx ∧ s'.vy = s.vy ∧
      (∃ tx, txOf c s = some tx ∧
        (∀ ty, tyOf c s = some ty → tx < ty ∧ epsilon ≤ |tx - ty|) ∧
        wx = (if 0 < s.vx then c.x_max else c.x_min))) ∨
    (s'.vy = -s.vy ∧ s'.vx = s.vx ∧
      (∃ ty, tyOf c s = some ty ∧
        (∀ tx, txOf c s = some tx → ty ≤ tx ∧ epsilon ≤ |tx - ty|) ∧
        wy = (if 0 < s.vy then c.y_max else c.y_min))) := by
  obtain ⟨tb, htb, htb0, hwx, hwy, hsx, hsy, hvel, hrem', hrem, hspdeq, hprog⟩ :=
    marchStep_bounce_inv c s wx wy s' hv h
  obtain ⟨hxlt, hylt, hx0, hx1, hy0, hy1, hokx, hoky, hact⟩ := hv
  cases hcx : txOf c s with
  | none =>
    cases hcy : tyOf c s with
    | none =>
      exfalso
      have hvx0 : s.vx = 0 := timeToBound_none_velocity hcx hokx
      have hvy0 : s.vy = 0 := timeToBound_none_velocity hcy hoky
      rcases hact with hl | hl
      · exact ne_zero_of_live hl hvx0
      · exact ne_zero_of_live hl hvy0
    | some ty =>
      right; right
      rw [hcx, hcy] at hvel htb
      simp only [reflect] at hvel
      obtain ⟨hvx', hvy'⟩ := Prod.mk.injEq .. ▸ hvel
      have htbty : tb = ty := by
        simpa [optMin] using htb.symm
      refine ⟨hvy', hvx', ty, rfl, ?_, ?_⟩
      · intro tx htx
        exact Option.noConfusion htx
      · rw [hwy, htbty]
        exact timeToBound_reach hcy
  | some tx =>
    cases hcy : tyOf c s with
    | none =>
      right; left
      rw [hcx, hcy] at hvel htb
      simp only [reflect] at hvel
      obtain ⟨hvx', hvy'⟩ := Prod.mk.injEq .. ▸ hvel
      have htbtx : tb = tx := by
        simpa [optMin] using htb.symm
      refine ⟨hvx', hvy', tx, rfl, ?_, ?_⟩
      · intro ty hty
        exact Option.noConfusion hty
      · rw [hwx, htbtx]
        exact timeToBound_reach hcx
    | some ty =>
      rw [hcx, hcy] at hvel htb
      have htbmin : tb = min tx ty := by
        simpa [optMin] using htb.symm
      by_cases hcorner : |tx - ty| < epsilon
      · left
        simp only [reflect, if_pos hcorner] at hvel
        obtain ⟨hvx', hvy'⟩ := Prod.mk.injEq .. ▸ hvel
        exact ⟨tx, ty, rfl, rfl, hcorner, hvx', hvy'⟩
      · by_cases hlt : tx < ty
        · right; left
          simp only [reflect, if_neg hcorner, if_pos hlt] at hvel
          obtain ⟨hvx', hvy'⟩ := Prod.mk.injEq .. ▸ hvel
          refine ⟨hvx', hvy', tx, rfl, ?_, ?_⟩
          · intro ty' hty'
            cases hty'
            exact ⟨hlt, not_lt.1 hcorner⟩
          · rw [hwx, htbmin, min_eq_left hlt.le]
            exact timeToBound_reach hcx
        · right; right
          simp only [reflect, if_neg hcorner, if_neg hlt] at hvel
          obtain ⟨hvx', hvy'⟩ := Prod.mk.injEq .. ▸ hvel
          refine ⟨hvy', hvx', ty, rfl, ?_, ?_⟩
          · intro tx' htx'
            cases htx'
            exact ⟨not_lt.1 hlt, not_lt.1 hcorner⟩
          · rw [hwy, htbmin, min_eq_right (not_lt.1 hlt)]
            exact timeToBound_reach hcy

lemma reaches_trans {c : MotionPlanner} {a b d : St}
    (h1 : Reaches c a b) (h2 : Reaches c b d) : Reaches c a d := by
  induction h2 with
  | refl => exact h1
  | step w hr hstep ih => exact Reaches.step w ih hstep

/-- The reflection contract of one bounce, as claim C3 states it: a corner
hit (boundary times within epsilon) flips both velocity signs; otherwise
the axis whose boundary time was smaller flips its sign, its coordinate of
the emitted waypoint lies exactly on the boundary in the travel direction,
and the other axis keeps its sign. -/
def FlipSpec (c : MotionPlanner) (u u' : St) (w : ℝ × ℝ) : Prop :=
  (∃ tx ty, txOf c u = some tx ∧ tyOf c u = some ty ∧ |tx - ty| < epsilon ∧
    u'.vx = -u.vx ∧ u'.vy = -u.vy) ∨
  (u'.vx = -u.vx ∧ u'.vy = u.vy ∧
    (∃ tx, txOf c u = some tx ∧
      (∀ ty, tyOf c u = some ty → tx < ty ∧ epsilon ≤ |tx - ty|) ∧
      w.1 = (if 0 < u.vx then c.x_max else c.x_min))) ∨
  (u'.vy = -u.vy ∧ u'.vx = u.vx ∧
    (∃ ty, tyOf c u = some ty ∧
      (∀ tx, txOf c u = some tx → ty ≤ tx ∧ epsilon ≤ |tx - ty|) ∧
      w.2 = (if 0 < u.vy then c.y_max else c.y_min)))

/-- A bounce step satisfies the reflection contract. -/
lemma marchStep_flipspec {c : MotionPlanner} {u u' : St} {w : ℝ × ℝ}
    (hv : Valid c u) (h : marchStep c u = .bounce w u') : FlipSpec c u u' w := by
  rcases w with ⟨wx, wy⟩
  exact marchStep_bounce_flip c u wx wy u' hv h

/-- C3: in every plan the ray march produces, each interior waypoint is
emitted by a bounce step from a reachable loop state, and that bounce obeys
the reflection contract: flip both signs on a corner hit (times within the
epsilon guard), otherwise flip exactly the touched axis — whose waypoint
coordinate sits on its boundary — while the other axis keeps its sign. -/
theorem ray_march_reflects (c : MotionPlanner) :
    ∀ (n : Nat) (s : St) (ws : List (ℝ × ℝ)), Valid c s →
      ray_march c n s = some ws →
      ∀ i (hi : i + 1 < ws.length),
        ∃ u u', Reaches c s u ∧
          marchStep c u = .bounce (ws.get ⟨i, by omega⟩) u' ∧
          FlipSpec c u u' (ws.get ⟨i, by omega⟩) := by
  intro n
  induction n with
  | zero =>
    intro s ws _ hm
    simp [ray_march] at hm
  | succ n ih =>
    intro s ws hv hm i hi
    simp only [ray_march] at hm
    cases hstep : marchStep c s with
    | exit =>
      rw [hstep] at hm
      cases hm
      simp at hi
    | stuck =>
      rw [hstep] at hm
      cases hm
      simp at hi
    | final p =>
      rw [hstep] at hm
      cases hm
      simp at hi
    | bounce w s' =>
      rw [hstep] at hm
      obtain ⟨ws', hws', rfl⟩ := Option.map_eq_some'.1 hm
      have hv' : Valid c s' := reaches_valid hv (Reaches.step w (Reaches.refl s) hstep)
      cases i with
      | zero =>
        refine ⟨s, s', Reaches.refl s, ?_, ?_⟩
        · simpa using hstep
        · exact marchStep_flipspec hv (by simpa using hstep)
      | succ j =>
        have hj : j + 1 < ws'.length := by
          simpa using hi
        obtain ⟨u, u', hru, hbu, hflip⟩ := ih s' ws' hv' hws' j hj
        refine ⟨u, u', reaches_trans (Reaches.step w (Reaches.refl s) hstep) hru, ?_, ?_⟩
        · simpa using hbu
        · simpa using hflip

/-- First step of the bouncing scenario: from x = 220 at +5.5 mm/s with
10 mm to go, the march touches x = 225 and reflects. -/
lemma scenC_step1 : marchStep ⟨10, 225, 10, 225⟩ ⟨220, 100, 5.5, 0, 10⟩ =
    .bounce (225, 100) ⟨225, 100, -5.5, 0, 5⟩ := by
  have habs : |(5.5 : ℝ)| = 5.5 := abs_of_pos (by norm_num)
  have heps : epsilon < (5.5 : ℝ) := by norm_num [epsilon]
  have hv : Valid ⟨10, 225, 10, 225⟩ ⟨220, 100, 5.5, 0, 10⟩ := by
    refine ⟨by norm_num, by norm_num, by norm_num, by norm_num, by norm_num, by norm_num,
      Or.inr ?_, Or.inl rfl, Or.inl ?_⟩ <;>
    · show epsilon < |(5.5 : ℝ)|
      rw [habs]
      exact heps
  have htxOf : txOf ⟨10, 225, 10, 225⟩ ⟨220, 100, 5.5, 0, 10⟩ =
      some ((225 - 220) / 5.5) := by
    show timeToBound (220 : ℝ) 10 225 5.5 = _
    rw [timeToBound_of_live _ _ _ (by rw [habs]; exact heps)]
    rw [if_pos (by norm_num : (0 : ℝ) < 5.5)]
  have htyOf : tyOf ⟨10, 225, 10, 225⟩ ⟨220, 100, 5.5, 0, 10⟩ = none :=
    timeToBound_of_zero _ _ _
  have htb : optMin (txOf ⟨10, 225, 10, 225⟩ ⟨220, 100, 5.5, 0, 10⟩)
      (tyOf ⟨10, 225, 10, 225⟩ ⟨220, 100, 5.5, 0, 10⟩) = some ((225 - 220) / 5.5) := by
    rw [htxOf, htyOf]
    rfl
  have hspd : spd ⟨220, 100, 5.5, 0, 10⟩ = 5.5 := by
    show Real.sqrt ((5.5 : ℝ) * 5.5 + 0 * 0) = 5.5
    rw [show (5.5 : ℝ) * 5.5 + 0 * 0 = (5.5 : ℝ) ^ 2 by norm_num]
    exact Real.sqrt_sq (by norm_num)
  have hrefl : reflect (txOf ⟨10, 225, 10, 225⟩ ⟨220, 100, 5.5, 0, 10⟩)
      (tyOf ⟨10, 225, 10, 225⟩ ⟨220, 100, 5.5, 0, 10⟩) (5.5 : ℝ) 0 = (-5.5, 0) := by
    rw [htxOf, htyOf]
    rfl
  have hrun := marchStep_run ⟨10, 225, 10, 225⟩ ⟨220, 100, 5.5, 0, 10⟩
    ((225 - 220) / 5.5) hv (by show epsilon < (10 : ℝ); norm_num [epsilon]) htb
  rw [hspd] at hrun
  rw [if_neg (by norm_num : ¬((10 : ℝ) ≤ (225 - 220) / 5.5 * 5.5))] at hrun
  rw [hrun]
  simp only [hrefl]
  norm_num [St.mk.injEq, Prod.mk.injEq]

/-- Second step of the bouncing scenario: the reflected leg ends after the
remaining 5 mm, back at x = 220. -/
lemma scenC_step2 : marchStep ⟨10, 225, 10, 225⟩ ⟨225, 100, -5.5, 0, 5⟩ =
    .final (220, 100) := by
  have habs : |(-5.5 : ℝ)| = 5.5 := by
    rw [abs_neg]
    exact abs_of_pos (by norm_num)
  have heps : epsilon < (5.5 : ℝ) := by norm_num [epsilon]
  have hv : Valid ⟨10, 225, 10, 225⟩ ⟨225, 100, -5.5, 0, 5⟩ := by
    refine ⟨by norm_num, by norm_num, by norm_num, by norm_num, by norm_num, by norm_num,
      Or.inr ?_, Or.inl rfl, Or.inl ?_⟩ <;>
    · show epsilon < |(-5.5 : ℝ)|
      rw [habs]
      exact heps
  have htxOf : txOf ⟨10, 225, 10, 225⟩ ⟨225, 100, -5.5, 0, 5⟩ =
      some ((10 - 225) / (-5.5)) := by
    show timeToBound (225 : ℝ) 10 225 (-5.5) = _
    rw [timeToBound_of_live _ _ _ (by rw [habs]; exact heps)]
    rw [if_neg (by norm_num : ¬((0 : ℝ) < -5.5))]
  have htyOf : tyOf ⟨10, 225, 10, 225⟩ ⟨225, 100, -5.5, 0, 5⟩ = none :=
    timeToBound_of_zero _ _ _
  have htb : optMin (txOf ⟨10, 225, 10, 225⟩ ⟨225, 100, -5.5, 0, 5⟩)
      (tyOf ⟨10, 225, 10, 225⟩ ⟨225, 100, -5.5, 0, 5⟩) = some ((10 - 225) / (-5.5)) := by
    rw [htxOf, htyOf]
    rfl
  have hspd : spd ⟨225, 100, -5.5, 0, 5⟩ = 5.5 := by
    show Real.sqrt ((-5.5 : ℝ) * (-5.5) + 0 * 0) = 5.5
    rw [show (-5.5 : ℝ) * (-5.5) + 0 * 0 = (5.5 : ℝ) ^ 2 by norm_num]
    exact Real.sqrt_sq (by norm_num)
  have hrun := marchStep_run ⟨10, 225, 10, 225⟩ ⟨225, 100, -5.5, 0, 5⟩
    ((10 - 225) / (-5.5)) hv (by show epsilon < (5 : ℝ); norm_num [epsilon]) htb
  rw [hspd] at hrun
  rw [if_pos (by norm_num : (5 : ℝ) ≤ (10 - 225) / (-5.5) * 5.5)] at hrun
  rw [hrun]
  norm_num [Prod.mk.injEq]

/-- The bouncing scenario march: two waypoints, the boundary touch at 225
and the final point back at 220. -/
lemma scenC_march : ray_march ⟨10, 225, 10, 225⟩ 2 ⟨220, 100, 5.5, 0, 10⟩ =
    some [(225, 100), (220, 100)] := by
  have hinner : ray_march ⟨10, 225, 10, 225⟩ 1 ⟨225, 100, -5.5, 0, 5⟩ =
      some [(220, 100)] := by
    show (match marchStep ⟨10, 225, 10, 225⟩ ⟨225, 100, -5.5, 0, 5⟩ with
      | .exit => some []
      | .stuck => some []
      | .final p => some [p]
      | .bounce w s' => (ray_march ⟨10, 225, 10, 225⟩ 0 s').map (fun ws => w :: ws)) =
      some [((220 : ℝ), (100 : ℝ))]
    rw [scenC_step2]
  show (match marchStep ⟨10, 225, 10, 225⟩ ⟨220, 100, 5.5, 0, 10⟩ with
    | .exit => some []
    | .stuck => some []
    | .final p => some [p]
    | .bounce w s' => (ray_march ⟨10, 225, 10, 225⟩ 1 s').map (fun ws => w :: ws)) =
    some [((225 : ℝ), (100 : ℝ)), ((220 : ℝ), (100 : ℝ))]
  rw [scenC_step1]
  show (ray_march ⟨10, 225, 10, 225⟩ 1 ⟨225, 100, -5.5, 0, 5⟩).map
    (fun ws => ((225 : ℝ), (100 : ℝ)) :: ws) = some [(225, 100), (220, 100)]
  rw [hinner]
  rfl

/-- Witness for C3: in the concrete bouncing scenario the interior waypoint
(225, 100) comes from a reachable bounce step satisfying the reflection
contract. -/
theorem ray_march_reflects_witness :
    ∃ u u', Reaches ⟨10, 225, 10, 225⟩ ⟨220, 100, 5.5, 0, 10⟩ u ∧
      marchStep ⟨10, 225, 10, 225⟩ u =
        .bounce (([((225 : ℝ), (100 : ℝ)), (220, 100)] : List (ℝ × ℝ)).get
          ⟨0, by norm_num⟩) u' ∧
      FlipSpec ⟨10, 225, 10, 225⟩ u u'
        (([((225 : ℝ), (100 : ℝ)), (220, 100)] : List (ℝ × ℝ)).get ⟨0, by norm_num⟩) := by
  have hv : Valid ⟨10, 225, 10, 225⟩ ⟨220, 100, 5.5, 0, 10⟩ := by
    refine ⟨by norm_num, by norm_num, by norm_num, by norm_num, by norm_num, by norm_num,
      Or.inr ?_, Or.inl rfl, Or.inl ?_⟩ <;>
    · show epsilon < |(5.5 : ℝ)|
      rw [abs_of_pos (by norm_num : (0 : ℝ) < 5.5)]
      norm_num [epsilon]
  exact ray_march_reflects ⟨10, 225, 10, 225⟩ 2 ⟨220, 100, 5.5, 0, 10⟩
    [(225, 100), (220, 100)] hv scenC_march 0 (by norm_num)

/-! ## Termination of the ray march (claim C4)

The measure counts, per live axis, how many full crossings of its interval
still fit into the remaining travel time beyond the current leg.  A bounce
resets the bounced axis's boundary time to a full crossing and leaves the
other axis's countdown unchanged, so the bounced axis's count drops by one
while the other's cannot grow — provided a full crossing dwarfs the epsilon
corner guard, which `Guard` states. -/

/-- Number of remaining full crossings hidden behind the current leg:
the nonnegative ceiling of `(T - t) / R`. -/
noncomputable def axisCount (T R t : ℝ) : Nat := (Int.ceil ((T - t) / R)).toNat

/-- Termination measure of a march state. -/
noncomputable def marchMeasure (c : MotionPlanner) (s : St) : Nat :=
  (match txOf c s with
    | some t => axisCount (s.rem / spd s) ((c.x_max - c.x_min) / |s.vx|) t
    | none => 0) +
  (match tyOf c s with
    | some t => axisCount (s.rem / spd s) ((c.y_max - c.y_min) / |s.vy|) t
    | none => 0)

/-- Regularity guard for termination: each live axis needs more than twice
the epsilon corner guard to cross its interval.  (For the configured
machine, crossing 215 mm at at most 157 mm/s takes over a second, far above
2e-6.) -/
def Guard (c : MotionPlanner) (s : St) : Prop :=
  (epsilon < |s.vx| → 2 * epsilon * |s.vx| ≤ c.x_max - c.x_min) ∧
  (epsilon < |s.vy| → 2 * epsilon * |s.vy| ≤ c.y_max - c.y_min)

/-- Advancing along the same velocity just shortens the boundary time. -/
lemma timeToBound_keep {p lo hi v t : ℝ} (tb : ℝ)
    (h : timeToBound p lo hi v = some t) :
    timeToBound (p + v * tb) lo hi v = some (t - tb) := by
  have hlive := timeToBound_some_live h
  have hne := ne_zero_of_live hlive
  rw [timeToBound_of_live p lo hi hlive] at h
  rw [timeToBound_of_live _ lo hi hlive]
  by_cases hv : 0 < v
  · rw [if_pos hv] at h ⊢
    rw [Option.some.injEq] at h ⊢
    rw [← h]
    field_simp
    ring
  · rw [if_neg hv] at h ⊢
    rw [Option.some.injEq] at h ⊢
    rw [← h]
    field_simp
    ring

/-- Advancing and reversing: the new boundary time is the full crossing
time minus what was left on the old countdown. -/
lemma timeToBound_flip {p lo hi v t : ℝ} (tb : ℝ)
    (h : timeToBound p lo hi v = some t) :
    timeToBound (p + v * tb) lo hi (-v) = some ((hi - lo) / |v| - (t - tb)) := by
  have hlive := timeToBound_some_live h
  have hne := ne_zero_of_live hlive
  have hlive' : epsilon < |(-v)| := by rwa [abs_neg]
  rw [timeToBound_of_live p lo hi hlive] at h
  rw [timeToBound_of_live _ lo hi hlive']
  by_cases hv : 0 < v
  · rw [if_pos hv] at h
    rw [if_neg (by linarith : ¬(0 < -v))]
    rw [Option.some.injEq] at h ⊢
    rw [← h, abs_of_pos hv]
    field_simp [hne]
    ring
  · have hvneg : v < 0 := lt_of_le_of_ne (not_lt.1 hv) hne
    rw [if_neg hv] at h
    rw [if_pos (by linarith : 0 < -v)]
    rw [Option.some.injEq] at h ⊢
    rw [← h, abs_of_neg hvneg]
    field_simp [hne]
    ring

/-- The bounced axis: its count drops strictly. -/
lemma axisCount_flip_min {T R t : ℝ} (hR : 0 < R) (htT : t < T) :
    axisCount (T - t) R (R - (t - t)) < axisCount T R t := by
  unfold axisCount
  have harg : (T - t - (R - (t - t))) / R = (T - t) / R - 1 := by
    field_simp
  rw [harg, Int.ceil_sub_one]
  have hpos : 0 < (T - t) / R := div_pos (by linarith) hR
  have hceil : 0 < Int.ceil ((T - t) / R) := Int.ceil_pos.2 hpos
  omega

/-- A corner-flipped non-minimal axis: its count cannot grow, provided the
drift `t - tb` stays below half a crossing. -/
lemma axisCount_flip_corner {T R t tb : ℝ} (hR : 0 < R) (hd : 2 * (t - tb) ≤ R) :
    axisCount (T - tb) R (R - (t - tb)) ≤ axisCount T R t := by
  unfold axisCount
  have harg : (T - tb - (R - (t - tb))) / R ≤ (T - t) / R :=
    (div_le_div_iff_of_pos_right hR).2 (by linarith)
  have := Int.ceil_mono harg
  omega

/-- An axis that keeps its sign: its count is unchanged. -/
lemma axisCount_keep {T R t : ℝ} (tb : ℝ) :
    axisCount (T - tb) R (t - tb) = axisCount T R t := by
  unfold axisCount
  congr 1
  ring_nf

/-- Every bounce strictly decreases the termination measure. -/
lemma marchMeasure_decrease (c : MotionPlanner) (s : St) (w : ℝ × ℝ) (s' : St)
    (hv : Valid c s) (hg : Guard c s) (h : marchStep c s = .bounce w s') :
    marchMeasure c s' < marchMeasure c s := by
  rcases w with ⟨wx, wy⟩
  obtain ⟨tb, htb, htb0, hwx, hwy, hsx, hsy, hvel, hrem', hrem, hspdeq, hprog⟩ :=
    marchStep_bounce_inv c s wx wy s' hv h
  obtain ⟨hxlt, hylt, hx0, hx1, hy0, hy1, hokx, hoky, hact⟩ := hv
  have hspd : 0 < spd s := spd_pos hact
  have hsx' : s'.x = s.x + s.vx * tb := hsx.trans hwx
  have hsy' : s'.y = s.y + s.vy * tb := hsy.trans hwy
  have hT' : s'.rem / spd s' = s.rem / spd s - tb := by
    rw [hspdeq, hrem', sub_div]
    congr 1
    field_simp
  have htbT : tb < s.rem / spd s := (lt_div_iff₀ hspd).2 hprog
  cases hcx : txOf c s with
  | none =>
    have hvx0 : s.vx = 0 := timeToBound_none_velocity hcx hokx
    cases hcy : tyOf c s with
    | none =>
      exfalso
      have hvy0 : s.vy = 0 := timeToBound_none_velocity hcy hoky
      rcases hact with hl | hl
      · exact ne_zero_of_live hl hvx0
      · exact ne_zero_of_live hl hvy0
    | some ty =>
      rw [hcx, hcy] at hvel htb
      have htbty : tb = ty := by simpa [optMin] using htb.symm
      subst htbty
      simp only [reflect] at hvel
      have hvx' : s'.vx = s.vx := (Prod.mk.injEq .. ▸ hvel).1
      have hvy' : s'.vy = -s.vy := (Prod.mk.injEq .. ▸ hvel).2
      have hlivey : epsilon < |s.vy| := timeToBound_some_live hcy
      have hRy : 0 < (c.y_max - c.y_min) / |s.vy| :=
        div_pos (by linarith) (lt_trans epsilon_pos hlivey)
      have htyOf2 : tyOf c s' =
          some ((c.y_max - c.y_min) / |s.vy| - (tb - tb)) := by
        show timeToBound s'.y c.y_min c.y_max s'.vy = _
        rw [hsy', hvy']
        exact timeToBound_flip tb hcy
      have htxOf2 : txOf c s' = none := by
        show timeToBound s'.x c.x_min c.x_max s'.vx = none
        rw [hvx', hvx0]
        exact timeToBound_of_zero _ _ _
      simp only [marchMeasure, hcx, hcy, htxOf2, htyOf2, hT', hvy', abs_neg]
      simpa using axisCount_flip_min hRy htbT
  | some tx =>
    cases hcy : tyOf c s with
    | none =>
      have hvy0 : s.vy = 0 := timeToBound_none_velocity hcy hoky
      rw [hcx, hcy] at hvel htb
      have htbtx : tb = tx := by simpa [optMin] using htb.symm
      subst htbtx
      simp only [reflect] at hvel
      have hvx' : s'.vx = -s.vx := (Prod.mk.injEq .. ▸ hvel).1
      have hvy' : s'.vy = s.vy := (Prod.mk.injEq .. ▸ hvel).2
      have hlivex : epsilon < |s.vx| := timeToBound_some_live hcx
      have hRx : 0 < (c.x_max - c.x_min) / |s.vx| :=
        div_pos (by linarith) (lt_trans epsilon_pos hlivex)
      have htxOf2 : txOf c s' =
          some ((c.x_max - c.x_min) / |s.vx| - (tb - tb)) := by
        show timeToBound s'.x c.x_min c.x_max s'.vx = _
        rw [hsx', hvx']
        exact timeToBound_flip tb hcx
      have htyOf2 : tyOf c s' = none := by
        show timeToBound s'.y c.y_min c.y_max s'.vy = none
        rw [hvy', hvy0]
        exact timeToBound_of_zero _ _ _
      simp only [marchMeasure, hcx, hcy, htxOf2, htyOf2, hT', hvx', abs_neg]
      simpa using axisCount_flip_min hRx htbT
    | some ty =>
      rw [hcx, hcy] at hvel htb
      have htbmin : tb = min tx ty := by simpa [optMin] using htb.symm
      have hlivex : epsilon < |s.vx| := timeToBound_some_live hcx
      have hlivey : epsilon < |s.vy| := timeToBound_some_live hcy
      have hRx : 0 < (c.x_max - c.x_min) / |s.vx| :=
        div_pos (by linarith) (lt_trans epsilon_pos hlivex)
      have hRy : 0 < (c.y_max - c.y_min) / |s.vy| :=
        div_pos (by linarith) (lt_trans epsilon_pos hlivey)
      have hgx : 2 * epsilon ≤ (c.x_max - c.x_min) / |s.vx| := by
        rw [le_div_iff₀ (lt_trans epsilon_pos hlivex)]
        exact hg.1 hlivex
      have hgy : 2 * epsilon ≤ (c.y_max - c.y_min) / |s.vy| := by
        rw [le_div_iff₀ (lt_trans epsilon_pos hlivey)]
        exact hg.2 hlivey
      by_cases hcorner : |tx - ty| < epsilon
      · simp only [reflect, if_pos hcorner] at hvel
        have hvx' : s'.vx = -s.vx := (Prod.mk.injEq .. ▸ hvel).1
        have hvy' : s'.vy = -s.vy := (Prod.mk.injEq .. ▸ hvel).2
        have htxOf2 : txOf c s' =
            some ((c.x_max - c.x_min) / |s.vx| - (tx - tb)) := by
          show timeToBound s'.x c.x_min c.x_max s'.vx = _
          rw [hsx', hvx']
          exact timeToBound_flip tb hcx
        have htyOf2 : tyOf c s' =
            some ((c.y_max - c.y_min) / |s.vy| - (ty - tb)) := by
          show timeToBound s'.y c.y_min c.y_max s'.vy = _
          rw [hsy', hvy']
          exact timeToBound_flip tb hcy
        simp only [marchMeasure, hcx, hcy, htxOf2, htyOf2, hT', hvx', hvy', abs_neg]
        rcases le_total tx ty with hxy | hxy
        · have htbtx : tb = tx := htbmin.trans (min_eq_left hxy)
          subst htbtx
          have hX := axisCount_flip_min hRx htbT
          have hY : axisCount (s.rem / spd s - tb) ((c.y_max - c.y_min) / |s.vy|)
              ((c.y_max - c.y_min) / |s.vy| - (ty - tb)) ≤
              axisCount (s.rem / spd s) ((c.y_max - c.y_min) / |s.vy|) ty := by
            apply axisCount_flip_corner hRy
            have habs : ty - tb ≤ |tb - ty| := by
              rw [abs_sub_comm]
              exact le_abs_self (ty - tb)
            linarith
          omega
        · have htbty : tb = ty := htbmin.trans (min_eq_right hxy)
          subst htbty
          have hY := axisCount_flip_min hRy htbT
          have hX : axisCount (s.rem / spd s - tb) ((c.x_max - c.x_min) / |s.vx|)
              ((c.x_max - c.x_min) / |s.vx| - (tx - tb)) ≤
              axisCount (s.rem / spd s) ((c.x_max - c.x_min) / |s.vx|) tx := by
            apply axisCount_flip_corner hRx
            have habs : tx - tb ≤ |tx - tb| := le_abs_self (tx - tb)
            linarith
          omega
      · by_cases hlt : tx < ty
        · simp only [reflect, if_neg hcorner, if_pos hlt] at hvel
          have hvx' : s'.vx = -s.vx := (Prod.mk.injEq .. ▸ hvel).1
          have hvy' : s'.vy = s.vy := (Prod.mk.injEq .. ▸ hvel).2
          have htbtx : tb = tx := htbmin.trans (min_eq_left hlt.le)
          subst htbtx
          have htxOf2 : txOf c s' =
              some ((c.x_max - c.x_min) / |s.vx| - (tb - tb)) := by
            show timeToBound s'.x c.x_min c.x_max s'.vx = _
            rw [hsx', hvx']
            exact timeToBound_flip tb hcx
          have htyOf2 : tyOf c s' = some (ty - tb) := by
            show timeToBound s'.y c.y_min c.y_max s'.vy = _
            rw [hsy', hvy']
            exact timeToBound_keep tb hcy
          simp only [marchMeasure, hcx, hcy, htxOf2, htyOf2, hT', hvx', hvy', abs_neg]
          have hX := axisCount_flip_min hRx htbT
          have hY := axisCount_keep (T := s.rem / spd s)
            (R := (c.y_max - c.y_min) / |s.vy|) (t := ty) tb
          omega
        · simp only [reflect, if_neg hcorner, if_neg hlt] at hvel
          have hvx' : s'.vx = s.vx := (Prod.mk.injEq .. ▸ hvel).1
          have hvy' : s'.vy = -s.vy := (Prod.mk.injEq .. ▸ hvel).2
          have htbty : tb = ty := htbmin.trans (min_eq_right (not_lt.1 hlt))
          subst htbty
          have htxOf2 : txOf c s' = some (tx - tb) := by
            show timeToBound s'.x c.x_min c.x_max s'.vx = _
            rw [hsx', hvx']
            exact timeToBound_keep tb hcx
          have htyOf2 : tyOf c s' =
              some ((c.y_max - c.y_min) / |s.vy| - (tb - tb)) := by
            show timeToBound s'.y c.y_min c.y_max s'.vy = _
            rw [hsy', hvy']
            exact timeToBound_flip tb hcy
          simp only [marchMeasure, hcx, hcy, htxOf2, htyOf2, hT', hvx', hvy', abs_neg]
          have hY := axisCount_flip_min hRy htbT
          have hX := axisCount_keep (T := s.rem / spd s)
            (R := (c.x_max - c.x_min) / |s.vx|) (t := tx) tb
          omega

/-- Reflection preserves the termination guard (speeds only change sign). -/
lemma guard_preserved {c : MotionPlanner} {s : St} {w : ℝ × ℝ} {s' : St}
    (hv : Valid c s) (hg : Guard c s) (h : marchStep c s = .bounce w s') :
    Guard c s' := by
  rcases w with ⟨wx, wy⟩
  obtain ⟨tb, _, _, _, _, _, _, hvel, _, _, _, _⟩ :=
    marchStep_bounce_inv c s wx wy s' hv h
  have hrc := reflect_cases (txOf c s) (tyOf c s) s.vx s.vy
  have habsx : |s'.vx| = |s.vx| := by
    apply abs_of_pm
    rw [show s'.vx = (s'.vx, s'.vy).1 from rfl, hvel]
    exact hrc.1
  have habsy : |s'.vy| = |s.vy| := by
    apply abs_of_pm
    rw [show s'.vy = (s'.vx, s'.vy).2 from rfl, hvel]
    exact hrc.2
  constructor
  · intro hl
    rw [habsx] at hl ⊢
    exact hg.1 hl
  · intro hl
    rw [habsy] at hl ⊢
    exact hg.2 hl

/-- More fuel never changes a march that already finished. -/
lemma ray_march_mono (c : MotionPlanner) :
    ∀ (n m : Nat) (s : St) (ws : List (ℝ × ℝ)), n ≤ m →
      ray_march c n s = some ws → ray_march c m s = some ws := by
  intro n
  induction n with
  | zero =>
    intro m s ws _ h
    simp [ray_march] at h
  | succ n ih =>
    intro m s ws hnm h
    match m, hnm with
    | m + 1, hnm =>
      simp only [ray_march] at h ⊢
      cases hstep : marchStep c s with
      | exit => rw [hstep] at h; exact h
      | stuck => rw [hstep] at h; exact h
      | final p => rw [hstep] at h; exact h
      | bounce w s' =>
        rw [hstep] at h
        obtain ⟨ws', hws', rfl⟩ := Option.map_eq_some'.1 h
        show Option.map (fun ws => w :: ws) (ray_march c m s') = some (w :: ws')
        rw [ih m s' ws' (by omega) hws']
        rfl

/-- The measure bounds the fuel the march needs. -/
lemma ray_march_of_measure (c : MotionPlanner) :
    ∀ (k : Nat) (s : St), Valid c s → Guard c s → marchMeasure c s ≤ k →
      ∃ ws, ray_march c (k + 1) s = some ws := by
  intro k
  induction k with
  | zero =>
    intro s hv hg hk
    by_cases hrem : s.rem ≤ epsilon
    · exact ⟨[], by simp only [ray_march]; rw [marchStep_exit_of_le hrem]⟩
    · rcases marchStep_cases_spec c s hv (not_le.1 hrem) with
        ⟨p, hstep, _⟩ | ⟨tb, w, s', hstep, _⟩
      · exact ⟨[p], by simp only [ray_march]; rw [hstep]⟩
      · exfalso
        have := marchMeasure_decrease c s w s' hv hg hstep
        omega
  | succ k ih =>
    intro s hv hg hk
    by_cases hrem : s.rem ≤ epsilon
    · exact ⟨[], by simp only [ray_march]; rw [marchStep_exit_of_le hrem]⟩
    · rcases marchStep_cases_spec c s hv (not_le.1 hrem) with
        ⟨p, hstep, _⟩ | ⟨tb, w, s', hstep, _, _, _, _, _, _, _, _, hv', _, _⟩
      · exact ⟨[p], by simp only [ray_march]; rw [hstep]⟩
      · have hg' := guard_preserved hv hg hstep
        have hdec := marchMeasure_decrease c s w s' hv hg hstep
        obtain ⟨ws', hws'⟩ := ih s' hv' hg' (by omega)
        refine ⟨w :: ws', ?_⟩
        simp only [ray_march]
        rw [hstep]
        show Option.map (fun ws => w :: ws) (ray_march c (k + 1) s') = some (w :: ws')
        rw [hws']
        rfl

/-- C4: the ray march is total.  From any in-bounds start with
non-degenerate intervals, each velocity component zero or beyond the
epsilon guard, at least one live axis, and each live axis needing more
than twice the epsilon guard to cross its interval, the march finishes
within some finite fuel — after finitely many reflections — and returns a
waypoint list that no additional fuel changes. -/
theorem ray_march_terminates (c : MotionPlanner) (s : St)
    (hv : Valid c s) (hg : Guard c s) :
    ∃ n ws, ray_march c n s = some ws ∧
      ∀ m, n ≤ m → ray_march c m s = some ws := by
  obtain ⟨ws, hws⟩ := ray_march_of_measure c (marchMeasure c s) s hv hg le_rfl
  exact ⟨marchMeasure c s + 1, ws, hws,
    fun m hm => ray_march_mono c _ m s ws hm hws⟩

/-- Witness for C4 at the 440 Hz scenario state. -/
theorem ray_march_terminates_witness :
    Valid ⟨10, 225, 10, 225⟩ ⟨200, 100, 5.5, 0, 5.5⟩ ∧
    Guard ⟨10, 225, 10, 225⟩ ⟨200, 100, 5.5, 0, 5.5⟩ ∧
    ∃ n ws, ray_march ⟨10, 225, 10, 225⟩ n ⟨200, 100, 5.5, 0, 5.5⟩ = some ws ∧
      ∀ m, n ≤ m → ray_march ⟨10, 225, 10, 225⟩ m ⟨200, 100, 5.5, 0, 5.5⟩ = some ws := by
  have habs : |(5.5 : ℝ)| = 5.5 := abs_of_pos (by norm_num)
  have hv : Valid ⟨10, 225, 10, 225⟩ ⟨200, 100, 5.5, 0, 5.5⟩ := by
    refine ⟨by norm_num, by norm_num, by norm_num, by norm_num, by norm_num, by norm_num,
      Or.inr ?_, Or.inl rfl, Or.inl ?_⟩ <;>
    · show epsilon < |(5.5 : ℝ)|
      rw [habs]
      norm_num [epsilon]
  have hg : Guard ⟨10, 225, 10, 225⟩ ⟨200, 100, 5.5, 0, 5.5⟩ := by
    refine ⟨fun _ => ?_, fun _ => ?_⟩
    · show 2 * epsilon * |(5.5 : ℝ)| ≤ 225 - 10
      rw [habs]
      norm_num [epsilon]
    · show 2 * epsilon * |(0 : ℝ)| ≤ 225 - 10
      rw [abs_zero]
      norm_num [epsilon]
  exact ⟨hv, hg, ray_march_terminates _ _ hv hg⟩

/-! ## The note player (src/note_player.py)

The player calls two planner methods, `plan_note_movement` and
`frequency_to_feedrate`, that `motion_planner.py` never defines (its class
body holds only `__init__`, `frequency_to_velocity`,
`_choose_direction_probabilistic`, `plan_movement`,
`plan_diagonal_movement` and `_ray_march`), so Python attribute lookup
raises `AttributeError` at the first call.  `PlannerObj` models the lookup
of those two attributes: `none` is the real object (lookup fails), a
`some` value models an object that does carry the method.  Device
responses are modelled as immediate acknowledgement (the claims about the
player concern validation and ordering, not device failures), and
wall-clock sleeps are not tracked. -/

/-- Outcome of looking up the two planner attributes `note_player.py`
uses.  The method signatures carry the random draw and march fuel needed
by a spec-faithful implementation. -/
structure PlannerObj where
  plan_note_movement : Option (Ax → ℝ → ℝ → ℝ → ℝ → Nat → List ℝ)
  frequency_to_feedrate : Option (Ax → ℝ → ℝ)

/-- The planner object as `motion_planner.py` actually defines it: neither
attribute exists. -/
def theMotionPlanner : PlannerObj := ⟨none, none⟩

/-- Observable actions of the player on the tracker and device channel:
a bounds validation inside `move_to`, or a `G1` move command written to
the serial channel with its axis targets and feedrate. -/
inductive Ev where
  | validated (axis : Ax) (target : ℝ)
  | wrote (targets : List (Ax × ℝ)) (feedrate : ℝ)

/-- Number of move commands written in a trace. -/
def writeCount (evs : List Ev) : Nat :=
  (evs.filter fun e => match e with
    | .wrote _ _ => true
    | _ => false).length

/-- Number of bounds validations performed in a trace. -/
def validationCount (evs : List Ev) : Nat :=
  (evs.filter fun e => match e with
    | .validated _ _ => true
    | _ => false).length

/-- The tracker's `move_to` as the player drives it, with the device
acknowledging at once: validate the boundary, then write the single-axis
`G1` command and update the stored coordinate
(position_tracker.py:55-69). -/
noncomputable def move_to_ev (tr : Tracker) (axis : Ax) (target feedrate : ℝ) :
    Tracker × Option PyErr × List Ev :=
  let lims := SAFE_LIMITS axis
  if ¬(lims.1 ≤ target ∧ target ≤ lims.2) then (tr, some .outOfBounds, [])
  else
    ((tr.set_position axis target), none,
      [.validated axis target, .wrote [(axis, target)] feedrate])

/-- The per-segment loop of `play_note` (note_player.py:105-122): for each
planned target, re-read the tracked position (raising `ValueError` when it
was lost), move through the tracker, and continue; the sleep between
segments is untracked. -/
noncomputable def execSegments (tr : Tracker) (axis : Ax) (feedrate : ℝ) :
    List ℝ → Tracker × Option PyErr × List Ev
  | [] => (tr, none, [])
  | target :: rest =>
    match tr.position axis with
    | none => (tr, some .valueError, [])
    | some _ =>
      let m := move_to_ev tr axis target feedrate
      match m.2.1 with
      | some e => (m.1, some e, m.2.2)
      | none =>
        let r := execSegments m.1 axis feedrate rest
        (r.1, r.2.1, m.2.2 ++ r.2.2)

/-- Embedding of `NotePlayer.play_note` (note_player.py:46-128): validate
the frequency band, require a known position, then look up
`plan_note_movement` — which fails with `AttributeError` on the real
planner — then `frequency_to_feedrate`, and execute the segments. -/
noncomputable def play_note (p : PlannerObj) (tr : Tracker) (axis : Ax)
    (frequency duration r : ℝ) (fuel : Nat) :
    Tracker × Option PyErr × List Ev :=
  let band := FREQUENCY_RANGES axis
  if ¬(band.1 ≤ frequency ∧ frequency ≤ band.2) then (tr, some .valueError, [])
  else
    match tr.position axis with
    | none => (tr, some .valueError, [])
    | some current_pos =>
      match p.plan_note_movement with
      | none => (tr, some .attributeError, [])
      | some planF =>
        let positions := planF axis frequency duration current_pos r fuel
        match p.frequency_to_feedrate with
        | none => (tr, some .attributeError, [])
        | some feedF => execSegments tr axis (feedF axis frequency) positions

/-- The interleaved two-axis loop of `play_note_diagonal`
(note_player.py:212-277): while either axis has targets left, read both
current positions, take each axis's next target (or hold its position),
write one combined `G1 X.. Y.. F..` command directly to the sender with
the larger feedrate, and update both stored positions.  No tracker
validation is involved. -/
noncomputable def diagSegments (frx fry : ℝ) :
    Tracker → List ℝ → List ℝ → Tracker × Option PyErr × List Ev
  | tr, [], [] => (tr, none, [])
  | tr, tx :: xs, ty :: ys =>
    match tr.position .X, tr.position .Y with
    | none, _ => (tr, some .valueError, [])
    | some _, none => (tr, some .valueError, [])
    | some _, some _ =>
      let tr' := (tr.set_position .X tx).set_position .Y ty
      let rest := diagSegments frx fry tr' xs ys
      (rest.1, rest.2.1, .wrote [(.X, tx), (.Y, ty)] (max frx fry) :: rest.2.2)
  | tr, tx :: xs, [] =>
    match tr.position .X, tr.position .Y with
    | none, _ => (tr, some .valueError, [])
    | some _, none => (tr, some .valueError, [])
    | some _, some cy =>
      let tr' := (tr.set_position .X tx).set_position .Y cy
      let rest := diagSegments frx fry tr' xs []
      (rest.1, rest.2.1, .wrote [(.X, tx), (.Y, cy)] (max frx fry) :: rest.2.2)
  | tr, [], ty :: ys =>
    match tr.position .X, tr.position .Y with
    | none, _ => (tr, some .valueError, [])
    | some _, none => (tr, some .valueError, [])
    | some cx, some _ =>
      let tr' := (tr.set_position .X cx).set_position .Y ty
      let rest := diagSegments frx fry tr' [] ys
      (rest.1, rest.2.1, .wrote [(.X, cx), (.Y, ty)] (max frx fry) :: rest.2.2)

/-- Embedding of `NotePlayer.play_note_diagonal` (note_player.py:139-283):
assign the lower frequency to Y and the higher to X, validate both bands,
require both positions, then look up and call `plan_note_movement` for
each axis and `frequency_to_feedrate` — failing with `AttributeError` on
the real planner — and run the interleaved loop. -/
noncomputable def play_note_diagonal (p : PlannerObj) (tr : Tracker)
    (frequency_low frequency_high duration rx ry : ℝ) (fuel : Nat) :
    Tracker × Option PyErr × List Ev :=
  let frequency_y := frequency_low
  let frequency_x := frequency_high
  let bandX := FREQUENCY_RANGES .X
  if ¬(bandX.1 ≤ frequency_x ∧ frequency_x ≤ bandX.2) then (tr, some .valueError, [])
  else
    let bandY := FREQUENCY_RANGES .Y
    if ¬(bandY.1 ≤ frequency_y ∧ frequency_y ≤ bandY.2) then (tr, some .valueError, [])
    else
      match tr.position .X, tr.position .Y with
      | none, _ => (tr, some .valueError, [])
      | some _, none => (tr, some .valueError, [])
      | some current_x, some current_y =>
        match p.plan_note_movement with
        | none => (tr, some .attributeError, [])
        | some planF =>
          let positions_x := planF .X frequency_x duration current_x rx fuel
          let positions_y := planF .Y frequency_y duration current_y ry fuel
          match p.frequency_to_feedrate with
          | none => (tr, some .attributeError, [])
          | some feedF =>
            diagSegments (feedF .X frequency_x) (feedF .Y frequency_y)
              tr positions_x positions_y

/-- Volume tags of `play_note_with_volume`. -/
inductive Volume where
  | soft | normal | loud
  deriving DecidableEq, Repr

/-- Embedding of `NotePlayer.play_note_with_volume`
(note_player.py:285-323): soft plays on X alone, normal on Y alone, loud
plays the same frequency on both axes diagonally. -/
noncomputable def play_note_with_volume (p : PlannerObj) (tr : Tracker)
    (frequency duration r rx ry : ℝ) (fuel : Nat) (volume : Volume) :
    Tracker × Option PyErr × List Ev :=
  match volume with
  | .soft => play_note p tr .X frequency duration r fuel
  | .normal => play_note p tr .Y frequency duration r fuel
  | .loud => play_note_diagonal p tr frequency frequency duration rx ry fuel

/-- With the real planner, `play_note` passes its input checks and then
fails looking up `plan_note_movement`, leaving the tracker untouched and
writing nothing. -/
lemma play_note_attr (tr : Tracker) (axis : Ax) (frequency duration r : ℝ)
    (fuel : Nat) (cur : ℝ)
    (h1 : (FREQUENCY_RANGES axis).1 ≤ frequency)
    (h2 : frequency ≤ (FREQUENCY_RANGES axis).2)
    (hpos : tr.position axis = some cur) :
    play_note theMotionPlanner tr axis frequency duration r fuel =
      (tr, some .attributeError, []) := by
  simp only [play_note, theMotionPlanner, hpos]
  rw [if_neg (not_not_intro ⟨h1, h2⟩)]

/-- With the real planner, `play_note_diagonal` likewise fails at the
`plan_note_movement` lookup. -/
lemma play_note_diagonal_attr (tr : Tracker) (fl fh duration rx ry : ℝ)
    (fuel : Nat) (cx cy : ℝ)
    (hx1 : (FREQUENCY_RANGES .X).1 ≤ fh) (hx2 : fh ≤ (FREQUENCY_RANGES .X).2)
    (hy1 : (FREQUENCY_RANGES .Y).1 ≤ fl) (hy2 : fl ≤ (FREQUENCY_RANGES .Y).2)
    (hposx : tr.position .X = some cx) (hposy : tr.position .Y = some cy) :
    play_note_diagonal theMotionPlanner tr fl fh duration rx ry fuel =
      (tr, some .attributeError, []) := by
  simp only [play_note_diagonal, theMotionPlanner, hposx, hposy]
  rw [if_neg (not_not_intro ⟨hx1, hx2⟩), if_neg (not_not_intro ⟨hy1, hy2⟩)]

/-- C8: with an in-band frequency and a known tracked position, every
note-playing entry point of `NotePlayer` raises `AttributeError` before
writing any command — `plan_note_movement` and `frequency_to_feedrate` do
not exist on `MotionPlanner` — and this covers `play_note`,
`play_note_diagonal`, and `play_note_with_volume` at every volume. -/
theorem note_player_missing_methods :
    (∀ (tr : Tracker) (axis : Ax) (frequency duration r : ℝ) (fuel : Nat) (cur : ℝ),
      (FREQUENCY_RANGES axis).1 ≤ frequency → frequency ≤ (FREQUENCY_RANGES axis).2 →
      tr.position axis = some cur →
      play_note theMotionPlanner tr axis frequency duration r fuel =
        (tr, some .attributeError, [])) ∧
    (∀ (tr : Tracker) (fl fh duration rx ry : ℝ) (fuel : Nat) (cx cy : ℝ),
      (FREQUENCY_RANGES .X).1 ≤ fh → fh ≤ (FREQUENCY_RANGES .X).2 →
      (FREQUENCY_RANGES .Y).1 ≤ fl → fl ≤ (FREQUENCY_RANGES .Y).2 →
      tr.position .X = some cx → tr.position .Y = some cy →
      play_note_diagonal theMotionPlanner tr fl fh duration rx ry fuel =
        (tr, some .attributeError, [])) ∧
    (∀ (tr : Tracker) (frequency duration r rx ry : ℝ) (fuel : Nat) (cx cy : ℝ)
        (volume : Volume),
      (FREQUENCY_RANGES .X).1 ≤ frequency → frequency ≤ (FREQUENCY_RANGES .X).2 →
      (FREQUENCY_RANGES .Y).1 ≤ frequency → frequency ≤ (FREQUENCY_RANGES .Y).2 →
      tr.position .X = some cx → tr.position .Y = some cy →
      play_note_with_volume theMotionPlanner tr frequency duration r rx ry fuel volume =
        (tr, some .attributeError, [])) := by
  refine ⟨fun tr axis f d r fuel cur h1 h2 hpos =>
      play_note_attr tr axis f d r fuel cur h1 h2 hpos,
    fun tr fl fh d rx ry fuel cx cy hx1 hx2 hy1 hy2 hpx hpy =>
      play_note_diagonal_attr tr fl fh d rx ry fuel cx cy hx1 hx2 hy1 hy2 hpx hpy,
    fun tr f d r rx ry fuel cx cy volume hx1 hx2 hy1 hy2 hpx hpy => ?_⟩
  cases volume with
  | soft => exact play_note_attr tr .X f d r fuel cx hx1 hx2 hpx
  | normal => exact play_note_attr tr .Y f d r fuel cy hy1 hy2 hpy
  | loud => exact play_note_diagonal_attr tr f f d rx ry fuel cx cy hx1 hx2 hy1 hy2 hpx hpy

/-- Witness for C8: a valid 440 Hz request with a known position fails
with `AttributeError`, no write, and an unchanged tracker on all three
entry points. -/
theorem note_player_missing_methods_witness :
    play_note theMotionPlanner ⟨some 200, some 100, some 5⟩ .X 440 1 0 1 =
      (⟨some 200, some 100, some 5⟩, some .attributeError, []) ∧
    play_note_diagonal theMotionPlanner ⟨some 200, some 100, some 5⟩ 220 440 1 0 0 1 =
      (⟨some 200, some 100, some 5⟩, some .attributeError, []) ∧
    play_note_with_volume theMotionPlanner ⟨some 200, some 100, some 5⟩ 440 1 0 0 0 1 .loud =
      (⟨some 200, some 100, some 5⟩, some .attributeError, []) := by
  refine ⟨?_, ?_, ?_⟩
  · exact note_player_missing_methods.1 ⟨some 200, some 100, some 5⟩ .X 440 1 0 1 200
      (by norm_num [FREQUENCY_RANGES]) (by norm_num [FREQUENCY_RANGES]) rfl
  · exact note_player_missing_methods.2.1 ⟨some 200, some 100, some 5⟩ 220 440 1 0 0 1 200 100
      (by norm_num [FREQUENCY_RANGES]) (by norm_num [FREQUENCY_RANGES])
      (by norm_num [FREQUENCY_RANGES]) (by norm_num [FREQUENCY_RANGES]) rfl rfl
  · exact note_player_missing_methods.2.2 ⟨some 200, some 100, some 5⟩ 440 1 0 0 0 1 200 100
      .loud (by norm_num [FREQUENCY_RANGES]) (by norm_num [FREQUENCY_RANGES])
      (by norm_num [FREQUENCY_RANGES]) (by norm_num [FREQUENCY_RANGES]) rfl rfl

/- Trace-count helpers. -/

lemma vCount_nil : validationCount [] = 0 := rfl

lemma wCount_nil : writeCount [] = 0 := rfl

lemma vCount_wrote (ts : List (Ax × ℝ)) (f : ℝ) (t : List Ev) :
    validationCount (.wrote ts f :: t) = validationCount t := rfl

lemma wCount_wrote (ts : List (Ax × ℝ)) (f : ℝ) (t : List Ev) :
    writeCount (.wrote ts f :: t) = writeCount t + 1 := rfl

lemma vCount_validated (a : Ax) (x : ℝ) (t : List Ev) :
    validationCount (.validated a x :: t) = validationCount t + 1 := rfl

lemma wCount_validated (a : Ax) (x : ℝ) (t : List Ev) :
    writeCount (.validated a x :: t) = writeCount t := rfl

/-- Every `G1` write in a trace targets only coordinates inside the
configured safe interval of its axis. -/
def SafeWrites (evs : List Ev) : Prop :=
  ∀ ts fr, Ev.wrote ts fr ∈ evs → ∀ q ∈ ts,
    (SAFE_LIMITS q.1).1 ≤ q.2 ∧ q.2 ≤ (SAFE_LIMITS q.1).2

lemma safeWrites_nil : SafeWrites [] := by
  intro ts fr h
  exact absurd h (List.not_mem_nil _)

lemma safeWrites_cons_validated (a : Ax) (x : ℝ) (t : List Ev)
    (ht : SafeWrites t) : SafeWrites (.validated a x :: t) := by
  intro ts fr hmem q hq
  rcases List.mem_cons.1 hmem with h | h
  · simp at h
  · exact ht ts fr h q hq

lemma safeWrites_cons_wrote (ts0 : List (Ax × ℝ)) (f : ℝ) (t : List Ev)
    (h0 : ∀ q ∈ ts0, (SAFE_LIMITS q.1).1 ≤ q.2 ∧ q.2 ≤ (SAFE_LIMITS q.1).2)
    (ht : SafeWrites t) : SafeWrites (.wrote ts0 f :: t) := by
  intro ts fr hmem q hq
  rcases List.mem_cons.1 hmem with h | h
  · injection h with h1 h2
    exact h0 q (h1 ▸ hq)
  · exact ht ts fr h q hq

/-- Unfolding of the playback loop when the position is lost. -/
lemma execSegments_cons_none (tr : Tracker) (axis : Ax) (f target : ℝ)
    (rest : List ℝ) (hpos : tr.position axis = none) :
    execSegments tr axis f (target :: rest) = (tr, some .valueError, []) := by
  simp only [execSegments, hpos]

/-- Unfolding of the playback loop when the target fails validation. -/
lemma execSegments_cons_bad (tr : Tracker) (axis : Ax) (f target : ℝ)
    (rest : List ℝ) (c : ℝ) (hpos : tr.position axis = some c)
    (hb : ¬((SAFE_LIMITS axis).1 ≤ target ∧ target ≤ (SAFE_LIMITS axis).2)) :
    execSegments tr axis f (target :: rest) = (tr, some .outOfBounds, []) := by
  simp only [execSegments, hpos, move_to_ev]
  rw [if_pos hb]

/-- Unfolding of the playback loop on a validated move. -/
lemma execSegments_cons_ok (tr : Tracker) (axis : Ax) (f target : ℝ)
    (rest : List ℝ) (c : ℝ) (hpos : tr.position axis = some c)
    (hb : (SAFE_LIMITS axis).1 ≤ target ∧ target ≤ (SAFE_LIMITS axis).2) :
    execSegments tr axis f (target :: rest) =
      ((execSegments (tr.set_position axis target) axis f rest).1,
        (execSegments (tr.set_position axis target) axis f rest).2.1,
        Ev.validated axis target :: Ev.wrote [(axis, target)] f ::
          (execSegments (tr.set_position axis target) axis f rest).2.2) := by
  simp only [execSegments, hpos, move_to_ev]
  rw [if_neg (not_not_intro hb)]
  rfl

/-- The single-axis playback loop performs exactly one tracker validation
per written command, and every written target passed that validation. -/
lemma execSegments_discipline (targets : List ℝ) :
    ∀ (tr : Tracker) (axis : Ax) (f : ℝ),
      validationCount (execSegments tr axis f targets).2.2 =
        writeCount (execSegments tr axis f targets).2.2 ∧
      SafeWrites (execSegments tr axis f targets).2.2 := by
  induction targets with
  | nil =>
    intro tr axis f
    exact ⟨rfl, safeWrites_nil⟩
  | cons target rest ih =>
    intro tr axis f
    cases hpos : tr.position axis with
    | none =>
      have ht : (execSegments tr axis f (target :: rest)).2.2 = [] := by
        rw [execSegments_cons_none tr axis f target rest hpos]
      rw [ht]
      exact ⟨rfl, safeWrites_nil⟩
    | some c =>
      by_cases hb : (SAFE_LIMITS axis).1 ≤ target ∧ target ≤ (SAFE_LIMITS axis).2
      · have ht : (execSegments tr axis f (target :: rest)).2.2 =
            Ev.validated axis target :: Ev.wrote [(axis, target)] f ::
              (execSegments (tr.set_position axis target) axis f rest).2.2 := by
          rw [execSegments_cons_ok tr axis f target rest c hpos hb]
        rw [ht]
        obtain ⟨ihc, ihs⟩ := ih (tr.set_position axis target) axis f
        constructor
        · rw [vCount_validated, vCount_wrote, wCount_validated, wCount_wrote]
          omega
        · refine safeWrites_cons_validated _ _ _ (safeWrites_cons_wrote _ _ _ ?_ ihs)
          intro q hq
          simp only [List.mem_singleton] at hq
          rw [hq]
          exact hb
      · have ht : (execSegments tr axis f (target :: rest)).2.2 = [] := by
          rw [execSegments_cons_bad tr axis f target rest c hpos hb]
        rw [ht]
        exact ⟨rfl, safeWrites_nil⟩

/-- Unfolding of the diagonal loop when both axes are exhausted. -/
lemma diagSegments_nil_eq (frx fry : ℝ) (tr : Tracker) :
    diagSegments frx fry tr [] [] = (tr, none, []) := by
  simp only [diagSegments]

/-- Unfolding of the diagonal loop when both axes have a target left. -/
lemma diagSegments_cons_cons (frx fry : ℝ) (tr : Tracker) (tx ty : ℝ)
    (xs ys : List ℝ) (cx cy : ℝ)
    (hx : tr.position .X = some cx) (hy : tr.position .Y = some cy) :
    diagSegments frx fry tr (tx :: xs) (ty :: ys) =
      ((diagSegments frx fry ((tr.set_position .X tx).set_position .Y ty) xs ys).1,
        (diagSegments frx fry ((tr.set_position .X tx).set_position .Y ty) xs ys).2.1,
        Ev.wrote [(Ax.X, tx), (Ax.Y, ty)] (max frx fry) ::
          (diagSegments frx fry ((tr.set_position .X tx).set_position .Y ty) xs ys).2.2) := by
  simp only [diagSegments, hx, hy]

/-- Unfolding of the diagonal loop when only X has targets left. -/
lemma diagSegments_cons_nil (frx fry : ℝ) (tr : Tracker) (tx : ℝ)
    (xs : List ℝ) (cx cy : ℝ)
    (hx : tr.position .X = some cx) (hy : tr.position .Y = some cy) :
    diagSegments frx fry tr (tx :: xs) [] =
      ((diagSegments frx fry ((tr.set_position .X tx).set_position .Y cy) xs []).1,
        (diagSegments frx fry ((tr.set_position .X tx).set_position .Y cy) xs []).2.1,
        Ev.wrote [(Ax.X, tx), (Ax.Y, cy)] (max frx fry) ::
          (diagSegments frx fry ((tr.set_position .X tx).set_position .Y cy) xs []).2.2) := by
  simp only [diagSegments, hx, hy]

/-- Unfolding of the diagonal loop when only Y has targets left. -/
lemma diagSegments_nil_cons (frx fry : ℝ) (tr : Tracker) (ty : ℝ)
    (ys : List ℝ) (cx cy : ℝ)
    (hx : tr.position .X = some cx) (hy : tr.position .Y = some cy) :
    diagSegments frx fry tr [] (ty :: ys) =
      ((diagSegments frx fry ((tr.set_position .X cx).set_position .Y ty) [] ys).1,
        (diagSegments frx fry ((tr.set_position .X cx).set_position .Y ty) [] ys).2.1,
        Ev.wrote [(Ax.X, cx), (Ax.Y, ty)] (max frx fry) ::
          (diagSegments frx fry ((tr.set_position .X cx).set_position .Y ty) [] ys).2.2) := by
  simp only [diagSegments, hx, hy]

/-- Unfolding of the diagonal loop when the X position is unknown. -/
lemma diagSegments_noX (frx fry : ℝ) (tr : Tracker) (xs ys : List ℝ)
    (hne : xs ≠ [] ∨ ys ≠ []) (hx : tr.position .X = none) :
    diagSegments frx fry tr xs ys = (tr, some .valueError, []) := by
  cases xs with
  | nil =>
    cases ys with
    | nil => rcases hne with h | h <;> exact absurd rfl h
    | cons ty ys => simp only [diagSegments, hx]
  | cons tx xs =>
    cases ys with
    | nil => simp only [diagSegments, hx]
    | cons ty ys => simp only [diagSegments, hx]

/-- Unfolding of the diagonal loop when the Y position is unknown. -/
lemma diagSegments_noY (frx fry : ℝ) (tr : Tracker) (xs ys : List ℝ) (cx : ℝ)
    (hne : xs ≠ [] ∨ ys ≠ []) (hx : tr.position .X = some cx)
    (hy : tr.position .Y = none) :
    diagSegments frx fry tr xs ys = (tr, some .valueError, []) := by
  cases xs with
  | nil =>
    cases ys with
    | nil => rcases hne with h | h <;> exact absurd rfl h
    | cons ty ys => simp only [diagSegments, hx, hy]
  | cons tx xs =>
    cases ys with
    | nil => simp only [diagSegments, hx, hy]
    | cons ty ys => simp only [diagSegments, hx, hy]

/-- The diagonal playback loop performs no tracker validation at all. -/
lemma diag_no_validation (frx fry : ℝ) :
    ∀ (n : Nat) (tr : Tracker) (xs ys : List ℝ), xs.length + ys.length ≤ n →
      validationCount (diagSegments frx fry tr xs ys).2.2 = 0 := by
  intro n
  induction n with
  | zero =>
    intro tr xs ys h
    cases xs with
    | nil =>
      cases ys with
      | nil =>
        rw [show (diagSegments frx fry tr [] []).2.2 = [] by
          rw [diagSegments_nil_eq]]
        rfl
      | cons ty ys => simp at h
    | cons tx xs => simp at h
  | succ n ih =>
    intro tr xs ys h
    have hnil : validationCount (diagSegments frx fry tr [] []).2.2 = 0 := by
      rw [show (diagSegments frx fry tr [] []).2.2 = [] by rw [diagSegments_nil_eq]]
      rfl
    cases xs with
    | nil =>
      cases ys with
      | nil => exact hnil
      | cons ty ys =>
        cases hx : tr.position .X with
        | none =>
          rw [show (diagSegments frx fry tr [] (ty :: ys)).2.2 = [] by
            rw [diagSegments_noX frx fry tr [] (ty :: ys) (Or.inr (by simp)) hx]]
          rfl
        | some cx =>
          cases hy : tr.position .Y with
          | none =>
            rw [show (diagSegments frx fry tr [] (ty :: ys)).2.2 = [] by
              rw [diagSegments_noY frx fry tr [] (ty :: ys) cx (Or.inr (by simp)) hx hy]]
            rfl
          | some cy =>
            rw [show (diagSegments frx fry tr [] (ty :: ys)).2.2 =
                Ev.wrote [(Ax.X, cx), (Ax.Y, ty)] (max frx fry) ::
                  (diagSegments frx fry
                    ((tr.set_position .X cx).set_position .Y ty) [] ys).2.2 by
              rw [diagSegments_nil_cons frx fry tr ty ys cx cy hx hy]]
            rw [vCount_wrote]
            exact ih _ [] ys (by simp at h ⊢; omega)
    | cons tx xs =>
      cases hx : tr.position .X with
      | none =>
        rw [show (diagSegments frx fry tr (tx :: xs) ys).2.2 = [] by
          rw [diagSegments_noX frx fry tr (tx :: xs) ys (Or.inl (by simp)) hx]]
        rfl
      | some cx =>
        cases hy : tr.position .Y with
        | none =>
          rw [show (diagSegments frx fry tr (tx :: xs) ys).2.2 = [] by
            rw [diagSegments_noY frx fry tr (tx :: xs) ys cx (Or.inl (by simp)) hx hy]]
          rfl
        | some cy =>
          cases ys with
          | nil =>
            rw [show (diagSegments frx fry tr (tx :: xs) []).2.2 =
                Ev.wrote [(Ax.X, tx), (Ax.Y, cy)] (max frx fry) ::
                  (diagSegments frx fry
                    ((tr.set_position .X tx).set_position .Y cy) xs []).2.2 by
              rw [diagSegments_cons_nil frx fry tr tx xs cx cy hx hy]]
            rw [vCount_wrote]
            exact ih _ xs [] (by simp at h ⊢; omega)
          | cons ty ys =>
            rw [show (diagSegments frx fry tr (tx :: xs) (ty :: ys)).2.2 =
                Ev.wrote [(Ax.X, tx), (Ax.Y, ty)] (max frx fry) ::
                  (diagSegments frx fry
                    ((tr.set_position .X tx).set_position .Y ty) xs ys).2.2 by
              rw [diagSegments_cons_cons frx fry tr tx ty xs ys cx cy hx hy]]
            rw [vCount_wrote]
            exact ih _ xs ys (by simp at h ⊢; omega)

/-- Single-axis playback through any planner object: one validation per
write, and only validated in-bounds targets are ever written. -/
lemma play_note_discipline (p : PlannerObj) (tr : Tracker) (axis : Ax)
    (frequency duration r : ℝ) (fuel : Nat) :
    validationCount (play_note p tr axis frequency duration r fuel).2.2 =
      writeCount (play_note p tr axis frequency duration r fuel).2.2 ∧
    SafeWrites (play_note p tr axis frequency duration r fuel).2.2 := by
  by_cases hband : (FREQUENCY_RANGES axis).1 ≤ frequency ∧
      frequency ≤ (FREQUENCY_RANGES axis).2
  · cases hpos : tr.position axis with
    | none =>
      have he : play_note p tr axis frequency duration r fuel =
          (tr, some .valueError, []) := by
        simp only [play_note, hpos]
        rw [if_neg (not_not_intro hband)]
      rw [he]
      exact ⟨rfl, safeWrites_nil⟩
    | some c =>
      cases hpl : p.plan_note_movement with
      | none =>
        have he : play_note p tr axis frequency duration r fuel =
            (tr, some .attributeError, []) := by
          simp only [play_note, hpos, hpl]
          rw [if_neg (not_not_intro hband)]
        rw [he]
        exact ⟨rfl, safeWrites_nil⟩
      | some planF =>
        cases hfd : p.frequency_to_feedrate with
        | none =>
          have he : play_note p tr axis frequency duration r fuel =
              (tr, some .attributeError, []) := by
            simp only [play_note, hpos, hpl, hfd]
            rw [if_neg (not_not_intro hband)]
          rw [he]
          exact ⟨rfl, safeWrites_nil⟩
        | some feedF =>
          have he : play_note p tr axis frequency duration r fuel =
              execSegments tr axis (feedF axis frequency)
                (planF axis frequency duration c r fuel) := by
            simp only [play_note, hpos, hpl, hfd]
            rw [if_neg (not_not_intro hband)]
          rw [he]
          exact execSegments_discipline (planF axis frequency duration c r fuel)
            tr axis (feedF axis frequency)
  · have he : play_note p tr axis frequency duration r fuel =
        (tr, some .valueError, []) := by
      simp only [play_note]
      rw [if_pos hband]
    rw [he]
    exact ⟨rfl, safeWrites_nil⟩

/-- Diagonal playback through any planner object performs zero tracker
validations, whatever it writes. -/
lemma play_note_diagonal_no_validation (p : PlannerObj) (tr : Tracker)
    (frequency_low frequency_high duration rx ry : ℝ) (fuel : Nat) :
    validationCount
      (play_note_diagonal p tr frequency_low frequency_high duration rx ry fuel).2.2 = 0 := by
  by_cases hbx : (FREQUENCY_RANGES .X).1 ≤ frequency_high ∧
      frequency_high ≤ (FREQUENCY_RANGES .X).2
  · by_cases hby : (FREQUENCY_RANGES .Y).1 ≤ frequency_low ∧
        frequency_low ≤ (FREQUENCY_RANGES .Y).2
    · cases hx : tr.position .X with
      | none =>
        have he : play_note_diagonal p tr frequency_low frequency_high duration rx ry fuel =
            (tr, some .valueError, []) := by
          simp only [play_note_diagonal, hx]
          rw [if_neg (not_not_intro hbx), if_neg (not_not_intro hby)]
        rw [he]
        rfl
      | some cx =>
        cases hy : tr.position .Y with
        | none =>
          have he : play_note_diagonal p tr frequency_low frequency_high duration rx ry fuel =
              (tr, some .valueError, []) := by
            simp only [play_note_diagonal, hx, hy]
            rw [if_neg (not_not_intro hbx), if_neg (not_not_intro hby)]
          rw [he]
          rfl
        | some cy =>
          cases hpl : p.plan_note_movement with
          | none =>
            have he : play_note_diagonal p tr frequency_low frequency_high
                duration rx ry fuel = (tr, some .attributeError, []) := by
              simp only [play_note_diagonal, hx, hy, hpl]
              rw [if_neg (not_not_intro hbx), if_neg (not_not_intro hby)]
            rw [he]
            rfl
          | some planF =>
            cases hfd : p.frequency_to_feedrate with
            | none =>
              have he : play_note_diagonal p tr frequency_low frequency_high
                  duration rx ry fuel = (tr, some .attributeError, []) := by
                simp only [play_note_diagonal, hx, hy, hpl, hfd]
                rw [if_neg (not_not_intro hbx), if_neg (not_not_intro hby)]
              rw [he]
              rfl
            | some feedF =>
              have he : play_note_diagonal p tr frequency_low frequency_high
                  duration rx ry fuel =
                  diagSegments (feedF .X frequency_high) (feedF .Y frequency_low) tr
                    (planF .X frequency_high duration cx rx fuel)
                    (planF .Y frequency_low duration cy ry fuel) := by
                simp only [play_note_diagonal, hx, hy, hpl, hfd]
                rw [if_neg (not_not_intro hbx), if_neg (not_not_intro hby)]
              rw [he]
              exact diag_no_validation (feedF .X frequency_high) (feedF .Y frequency_low)
                ((planF .X frequency_high duration cx rx fuel).length +
                  (planF .Y frequency_low duration cy ry fuel).length)
                tr _ _ le_rfl
    · have he : play_note_diagonal p tr frequency_low frequency_high duration rx ry fuel =
          (tr, some .valueError, []) := by
        simp only [play_note_diagonal]
        rw [if_neg (not_not_intro hbx), if_pos hby]
      rw [he]
      rfl
  · have he : play_note_diagonal p tr frequency_low frequency_high duration rx ry fuel =
        (tr, some .valueError, []) := by
      simp only [play_note_diagonal]
      rw [if_pos hbx]
    rw [he]
    rfl

/-- Modelled from the spec: the single-axis `plan_note_movement` the Note
Player expects of the planner (spec §3, §4.3): convert the frequency to a
velocity through the axis's steps-per-unit, pick the initial direction
probabilistically with steepness 10, and ray-march a distance of
`velocity × duration` inside the axis's safe interval (the unused second
axis held still at 0 in a dummy interval), returning the marched
coordinates in order. -/
noncomputable def spec_plan_note_movement (axis : Ax)
    (frequency duration current_pos r : ℝ) (fuel : Nat) : List ℝ :=
  let lims := SAFE_LIMITS axis
  let v := frequency_to_velocity axis frequency
  let dir := choose_direction_probabilistic r current_pos lims.1 lims.2 10.0
  (((ray_march ⟨lims.1, lims.2, 0, 1⟩ fuel
      ⟨current_pos, 0, v * (dir : ℝ), 0, v * duration⟩).getD []).map Prod.fst)

/-- Modelled from the spec: `frequency_to_feedrate` is the axis speed in
units per minute, `speed × 60` (spec §4.3 step 2). -/
noncomputable def spec_frequency_to_feedrate (axis : Ax) (frequency : ℝ) : ℝ :=
  frequency_to_velocity axis frequency * 60.0

/-- A planner object carrying the spec-modelled implementations of the two
methods `note_player.py` calls but `motion_planner.py` never defines. -/
noncomputable def specPlanner : PlannerObj :=
  ⟨some spec_plan_note_movement, some spec_frequency_to_feedrate⟩

/-- With a non-negative logistic argument the probability is positive, so
the draw `r = 0` always picks the positive direction. -/
lemma choose_zero_r (p lo hi st : ℝ) :
    choose_direction_probabilistic 0 p lo hi st = 1 := by
  simp only [choose_direction_probabilistic]
  rw [if_pos]
  positivity

/-- A march that fits inside the remaining room toward the upper bound
produces exactly one waypoint at `start + distance`. -/
lemma march_simple_pos (lo hi p v rem : ℝ)
    (hlo : lo < hi) (hp0 : lo ≤ p) (hp1 : p ≤ hi)
    (hv : epsilon < v) (hrem : epsilon < rem) (hfit : rem ≤ hi - p) :
    ray_march ⟨lo, hi, 0, 1⟩ 1 ⟨p, 0, v, 0, rem⟩ = some [(p + rem, 0)] := by
  have hv0 : (0 : ℝ) < v := lt_trans (by norm_num [epsilon]) hv
  have hvne : v ≠ 0 := ne_of_gt hv0
  have habs : |v| = v := abs_of_pos hv0
  have hv' : epsilon < |v| := by
    rw [habs]
    exact hv
  have hvalid : Valid ⟨lo, hi, 0, 1⟩ ⟨p, 0, v, 0, rem⟩ :=
    ⟨hlo, by norm_num, hp0, hp1, by norm_num, by norm_num,
      Or.inr hv', Or.inl rfl, Or.inl hv'⟩
  have htx : timeToBound p lo hi v = some ((hi - p) / v) := by
    rw [timeToBound_of_live _ _ _ hv', if_pos hv0]
  have hty : timeToBound (0 : ℝ) 0 1 (0 : ℝ) = none := timeToBound_of_zero _ _ _
  have htb : optMin (txOf ⟨lo, hi, 0, 1⟩ ⟨p, 0, v, 0, rem⟩)
      (tyOf ⟨lo, hi, 0, 1⟩ ⟨p, 0, v, 0, rem⟩) = some ((hi - p) / v) := by
    show optMin (timeToBound p lo hi v) (timeToBound 0 0 1 0) = _
    rw [htx, hty]
    rfl
  have hspd : spd ⟨p, 0, v, 0, rem⟩ = v := by
    show Real.sqrt (v * v + 0 * 0) = v
    rw [show v * v + 0 * 0 = v ^ 2 by ring]
    exact Real.sqrt_sq hv0.le
  have hstep := marchStep_run ⟨lo, hi, 0, 1⟩ ⟨p, 0, v, 0, rem⟩ ((hi - p) / v)
    hvalid (by show epsilon < rem; exact hrem) htb
  rw [hspd] at hstep
  have hcancel : (hi - p) / v * v = hi - p := div_mul_cancel₀ _ hvne
  rw [if_pos (by rw [hcancel]; exact hfit)] at hstep
  have hpt : ((⟨p, 0, v, 0, rem⟩ : St).x + (⟨p, 0, v, 0, rem⟩ : St).vx *
      ((⟨p, 0, v, 0, rem⟩ : St).rem / v),
      (⟨p, 0, v, 0, rem⟩ : St).y + (⟨p, 0, v, 0, rem⟩ : St).vy *
      ((⟨p, 0, v, 0, rem⟩ : St).rem / v)) = ((p + rem : ℝ), (0 : ℝ)) := by
    show (p + v * (rem / v), 0 + 0 * (rem / v)) = (p + rem, 0)
    rw [mul_comm v (rem / v), div_mul_cancel₀ _ hvne]
    norm_num
  rw [hpt] at hstep
  show (match marchStep ⟨lo, hi, 0, 1⟩ ⟨p, 0, v, 0, rem⟩ with
    | .exit => some []
    | .stuck => some []
    | .final q => some [q]
    | .bounce w s' => (ray_march ⟨lo, hi, 0, 1⟩ 0 s').map (fun ws => w :: ws)) =
    some [((p + rem : ℝ), (0 : ℝ))]
  rw [hstep]

/-- The spec-modelled X plan for 440 Hz, 1 s from 200 mm: one waypoint at
205.5 mm. -/
lemma c9_plan_X : spec_plan_note_movement .X 440 1 200 0 1 = [205.5] := by
  show (((ray_march ⟨(SAFE_LIMITS Ax.X).1, (SAFE_LIMITS Ax.X).2, 0, 1⟩ 1
      ⟨200, 0, frequency_to_velocity Ax.X 440 *
        ((choose_direction_probabilistic 0 200 (SAFE_LIMITS Ax.X).1
          (SAFE_LIMITS Ax.X).2 10.0 : Int) : ℝ), 0,
        frequency_to_velocity Ax.X 440 * 1⟩).getD []).map Prod.fst) = [205.5]
  have hl1 : (SAFE_LIMITS Ax.X).1 = 10 := by norm_num [SAFE_LIMITS]
  have hl2 : (SAFE_LIMITS Ax.X).2 = 225 := by norm_num [SAFE_LIMITS]
  rw [hl1, hl2, choose_zero_r]
  rw [show (⟨200, 0, frequency_to_velocity Ax.X 440 * ((1 : Int) : ℝ), 0,
      frequency_to_velocity Ax.X 440 * 1⟩ : St) = ⟨200, 0, 5.5, 0, 5.5⟩ by
    simp only [St.mk.injEq]
    norm_num [frequency_to_velocity, STEPS_PER_MM]]
  rw [march_simple_pos 10 225 200 5.5 5.5 (by norm_num) (by norm_num) (by norm_num)
    (by norm_num [epsilon]) (by norm_num [epsilon]) (by norm_num)]
  norm_num

/-- The spec-modelled Y plan for 220 Hz, 1 s from 100 mm: one waypoint at
102.75 mm. -/
lemma c9_plan_Y : spec_plan_note_movement .Y 220 1 100 0 1 = [102.75] := by
  show (((ray_march ⟨(SAFE_LIMITS Ax.Y).1, (SAFE_LIMITS Ax.Y).2, 0, 1⟩ 1
      ⟨100, 0, frequency_to_velocity Ax.Y 220 *
        ((choose_direction_probabilistic 0 100 (SAFE_LIMITS Ax.Y).1
          (SAFE_LIMITS Ax.Y).2 10.0 : Int) : ℝ), 0,
        frequency_to_velocity Ax.Y 220 * 1⟩).getD []).map Prod.fst) = [102.75]
  have hl1 : (SAFE_LIMITS Ax.Y).1 = 10 := by norm_num [SAFE_LIMITS]
  have hl2 : (SAFE_LIMITS Ax.Y).2 = 225 := by norm_num [SAFE_LIMITS]
  rw [hl1, hl2, choose_zero_r]
  rw [show (⟨100, 0, frequency_to_velocity Ax.Y 220 * ((1 : Int) : ℝ), 0,
      frequency_to_velocity Ax.Y 220 * 1⟩ : St) = ⟨100, 0, 2.75, 0, 2.75⟩ by
    simp only [St.mk.injEq]
    norm_num [frequency_to_velocity, STEPS_PER_MM]]
  rw [march_simple_pos 10 225 100 2.75 2.75 (by norm_num) (by norm_num) (by norm_num)
    (by norm_num [epsilon]) (by norm_num [epsilon]) (by norm_num)]
  norm_num

/-- Concrete spec-modelled diagonal run: a 220/440 Hz chord for 1 s from
(200, 100) succeeds and writes exactly one combined command, with no
validation event. -/
lemma c9_diag_eval :
    play_note_diagonal specPlanner ⟨some 200, some 100, some 5⟩ 220 440 1 0 0 1 =
      (⟨some 205.5, some 102.75, some 5⟩, none,
        [.wrote [(.X, 205.5), (.Y, 102.75)] 330]) := by
  have hfx : spec_frequency_to_feedrate .X 440 = 330 := by
    norm_num [spec_frequency_to_feedrate, frequency_to_velocity, STEPS_PER_MM]
  have hfy : spec_frequency_to_feedrate .Y 220 = 165 := by
    norm_num [spec_frequency_to_feedrate, frequency_to_velocity, STEPS_PER_MM]
  simp only [play_note_diagonal, specPlanner, Tracker.position]
  rw [if_neg (not_not_intro (by norm_num [FREQUENCY_RANGES] :
    (FREQUENCY_RANGES Ax.X).1 ≤ (440 : ℝ) ∧ (440 : ℝ) ≤ (FREQUENCY_RANGES Ax.X).2))]
  rw [if_neg (not_not_intro (by norm_num [FREQUENCY_RANGES] :
    (FREQUENCY_RANGES Ax.Y).1 ≤ (220 : ℝ) ∧ (220 : ℝ) ≤ (FREQUENCY_RANGES Ax.Y).2))]
  rw [c9_plan_X, c9_plan_Y, hfx, hfy]
  show (diagSegments 330 165 ⟨some 200, some 100, some 5⟩ [205.5] [102.75]) =
    (⟨some 205.5, some 102.75, some 5⟩, none, [.wrote [(.X, 205.5), (.Y, 102.75)] 330])
  rw [diagSegments_cons_cons 330 165 ⟨some 200, some 100, some 5⟩ 205.5 102.75 [] []
    200 100 rfl rfl]
  rw [show ((⟨some 200, some 100, some 5⟩ : Tracker).set_position .X 205.5).set_position
    .Y 102.75 = (⟨some 205.5, some 102.75, some 5⟩ : Tracker) from rfl]
  rw [diagSegments_nil_eq]
  rw [show max (330 : ℝ) 165 = 330 from max_eq_left (by norm_num)]

/-- C9 counterexample: with the spec-modelled planner methods in place, a
valid diagonal chord play writes a move command to the device channel with
zero tracker validations — the diagonal loop builds combined `G1` lines
itself and never calls the Position Tracker's validated `move_to`. -/
theorem diagonal_write_without_validation :
    writeCount (play_note_diagonal specPlanner
      ⟨some 200, some 100, some 5⟩ 220 440 1 0 0 1).2.2 = 1 ∧
    validationCount (play_note_diagonal specPlanner
      ⟨some 200, some 100, some 5⟩ 220 440 1 0 0 1).2.2 = 0 ∧
    (play_note_diagonal specPlanner ⟨some 200, some 100, some 5⟩ 220 440 1 0 0 1).2.1 =
      none := by
  rw [c9_diag_eval]
  exact ⟨rfl, rfl, rfl⟩

/-- C9 (amended): single-axis playback routes every waypoint through the
Position Tracker — one validation per written command, and only targets
inside the safe interval are ever written — but diagonal playback performs
zero tracker validations, whatever planner object is installed. -/
theorem playback_validation_discipline :
    (∀ (p : PlannerObj) (tr : Tracker) (axis : Ax) (frequency duration r : ℝ) (fuel : Nat),
      validationCount (play_note p tr axis frequency duration r fuel).2.2 =
        writeCount (play_note p tr axis frequency duration r fuel).2.2 ∧
      SafeWrites (play_note p tr axis frequency duration r fuel).2.2) ∧
    (∀ (p : PlannerObj) (tr : Tracker) (fl fh duration rx ry : ℝ) (fuel : Nat),
      validationCount (play_note_diagonal p tr fl fh duration rx ry fuel).2.2 = 0) :=
  ⟨fun p tr axis frequency duration r fuel =>
      play_note_discipline p tr axis frequency duration r fuel,
    fun p tr fl fh duration rx ry fuel =>
      play_note_diagonal_no_validation p tr fl fh duration rx ry fuel⟩

/-- Witness for C9: the discipline theorem applied at the spec-modelled
planner and concrete inputs. -/
theorem playback_validation_discipline_witness :
    (validationCount (play_note specPlanner
        ⟨some 200, some 100, some 5⟩ .X 440 1 0 1).2.2 =
      writeCount (play_note specPlanner ⟨some 200, some 100, some 5⟩ .X 440 1 0 1).2.2) ∧
    validationCount (play_note_diagonal specPlanner
      ⟨some 200, some 100, some 5⟩ 220 440 1 0 0 1).2.2 = 0 :=
  ⟨(playback_validation_discipline.1 specPlanner ⟨some 200, some 100, some 5⟩ .X 440 1 0 1).1,
    playback_validation_discipline.2 specPlanner ⟨some 200, some 100, some 5⟩ 220 440 1 0 0 1⟩

/-- C10: the Note Player holds no per-axis frequency or direction memory
and passes no direction override to the planner: its constructor stores
only the serial handle, tracker and planner, and `play_note_diagonal`
invoked twice in a row with the identical frequency pair behaves
identically — on the real planner both calls fail with `AttributeError`,
change nothing and write nothing, so consecutive identical notes are
indistinguishable rather than taking opposite initial directions. -/
theorem note_player_no_direction_memory :
    play_note_diagonal theMotionPlanner ⟨some 200, some 100, some 5⟩ 440 440 1 0 0 1 =
      (⟨some 200, some 100, some 5⟩, some .attributeError, []) ∧
    play_note_diagonal theMotionPlanner
        (play_note_diagonal theMotionPlanner
          ⟨some 200, some 100, some 5⟩ 440 440 1 0 0 1).1 440 440 1 0 0 1 =
      (⟨some 200, some 100, some 5⟩, some .attributeError, []) := by
  have h1 : play_note_diagonal theMotionPlanner
      ⟨some 200, some 100, some 5⟩ 440 440 1 0 0 1 =
      (⟨some 200, some 100, some 5⟩, some .attributeError, []) :=
    play_note_diagonal_attr ⟨some 200, some 100, some 5⟩ 440 440 1 0 0 1 200 100
      (by norm_num [FREQUENCY_RANGES]) (by norm_num [FREQUENCY_RANGES])
      (by norm_num [FREQUENCY_RANGES]) (by norm_num [FREQUENCY_RANGES]) rfl rfl
  refine ⟨h1, ?_⟩
  rw [h1]
  exact play_note_diagonal_attr ⟨some 200, some 100, some 5⟩ 440 440 1 0 0 1 200 100
    (by norm_num [FREQUENCY_RANGES]) (by norm_num [FREQUENCY_RANGES])
    (by norm_num [FREQUENCY_RANGES]) (by norm_num [FREQUENCY_RANGES]) rfl rfl

end PrinterMusic
